import Mathlib

/-!
# Catalyst: the `nex` ownership handles

A shallow embedding of `nex::shared_ptr`, `nex::scoped_ptr` and the factories built on them
(src/main.cpp, lines 40-171 and 182-237).

* The free store is a pair of typed maps from addresses to live objects: one for the
  `unsigned int` counters made by `new unsigned int(1)`, one for the payloads made by
  `new T(...)`.  An address the map sends to `none` holds no live object.
* `new` may return any address that holds no live object; the address is an argument of the
  constructing operation.
* `delete` of a null pointer does nothing; `delete` of a pointer to a live object ends its
  life; reading, writing or deleting through any other pointer is undefined, and the
  embedding returns `none` there.
* `unsigned int` is 32 bits wide; its arithmetic is arithmetic modulo `2 ^ 32`.
* Addresses are natural numbers and the null pointer is `none`, so address 0 is an address
  like any other; the counters and the payloads have separate address spaces.
* A handle object is a slot in a list; the slot index is the object's identity (`this`).
  A destroyed handle leaves `none` in its slot.
* The `std::cout` / `NEX_LOG` lines have no effect on the handles or the free store and are
  left out.
-/

namespace nex

/-- An address in the free store. -/
abbrev Addr := Nat

/-- Number of values of an `unsigned int` (32 bits). -/
def UINT_MOD : Nat := 2 ^ 32

/-- A typed region of the free store: the live objects of one type, by address. -/
abbrev Store (α : Type) := Addr → Option α

namespace Store

variable {α : Type}

/-- The store with no live object. -/
def empty : Store α := fun _ => none

/-- Put `x` at address `p`. -/
def write (m : Store α) (p : Addr) (x : α) : Store α :=
  fun q => if q = p then some x else m q

/-- End the life of the object at `p`. -/
def free (m : Store α) (p : Addr) : Store α :=
  fun q => if q = p then none else m q

/-- `new α(x)` returning address `p`; `new` never returns the address of a live object. -/
def alloc (m : Store α) (p : Addr) (x : α) : Option (Store α) :=
  match m p with
  | none => some (m.write p x)
  | some _ => none

/-- `delete p`: nothing for a null pointer, undefined unless `p` points to a live object. -/
def delete (m : Store α) : Option Addr → Option (Store α)
  | none => some m
  | some p =>
    match m p with
    | none => none
    | some _ => some (m.free p)

end Store

/-- The live object in slot `i` of a list of object slots, if any. -/
def slot {α : Type} (l : List (Option α)) (i : Nat) : Option α :=
  match l[i]? with
  | some (some h) => some h
  | _ => none

/-- `++x` on an `unsigned int`. -/
def uint_inc (n : Nat) : Nat := (n + 1) % UINT_MOD

/-- `--x` on an `unsigned int`. -/
def uint_dec (n : Nat) : Nat := (n + (UINT_MOD - 1)) % UINT_MOD

/-! ## `nex::shared_ptr<T>` (lines 40-115) -/

/-- The data members of `shared_ptr<T>`: `unsigned int* _refCount` and `T* _raw`;
`none` is `nullptr`. -/
structure shared_ptr where
  _refCount : Option Addr
  _raw : Option Addr
  deriving DecidableEq, Repr

/-- The free store together with the `shared_ptr` objects created so far. -/
structure State (T : Type) where
  counters : Store Nat
  values : Store T
  handles : List (Option shared_ptr)

namespace State

variable {T : Type}

/-- Nothing allocated, no handle. -/
def empty : State T := ⟨Store.empty, Store.empty, []⟩

/-- The live handle object in slot `i`, if any. -/
def handle (s : State T) (i : Nat) : Option shared_ptr := slot s.handles i

/-- Whether a slot holds a live handle whose `_refCount` is `c`. -/
def refersTo (c : Addr) : Option shared_ptr → Bool
  | some h => decide (h._refCount = some c)
  | none => false

/-- Whether a slot holds a live handle whose `_raw` is `v`. -/
def holds (v : Addr) : Option shared_ptr → Bool
  | some h => decide (h._raw = some v)
  | none => false

/-- Number of live handles whose `_refCount` points to `c`. -/
def useCount (s : State T) (c : Addr) : Nat := s.handles.countP (refersTo c)

/-- Number of live handles. -/
def liveCount (s : State T) : Nat := s.handles.countP Option.isSome

end State

namespace shared_ptr

variable {T : Type}

/-- `T* get() const` (line 101). -/
def get (h : shared_ptr) : Option Addr := h._raw

/-- `T& operator*()` (line 100): the payload `_raw` points to. -/
def deref (s : State T) (h : shared_ptr) : Option T :=
  match h._raw with
  | none => none
  | some v => s.values v

/-- `shared_ptr(void)` (lines 48-53): `_raw = nullptr; _refCount = new unsigned int(1)`.
`c` is the address `new` returns. -/
def ctor_default (s : State T) (c : Addr) : Option (State T) :=
  match s.counters.alloc c 1 with
  | none => none
  | some counters =>
    some { counters := counters, values := s.values,
           handles := s.handles ++ [some ⟨some c, none⟩] }

/-- `shared_ptr(T&& value)` (lines 55-58) and `shared_ptr(Args&&... args)` (lines 60-65),
the latter with `value` the object `T(args...)`:
`_refCount(new unsigned int(1))`, `_raw(new T(...))`. -/
def ctor_value (s : State T) (value : T) (c v : Addr) : Option (State T) :=
  match s.counters.alloc c 1 with
  | none => none
  | some counters =>
    match s.values.alloc v value with
    | none => none
    | some values =>
      some { counters := counters, values := values,
             handles := s.handles ++ [some ⟨some c, some v⟩] }

/-- `shared_ptr(const shared_ptr& other)` (lines 106-114):
`_refCount = other._refCount; _raw = other._raw; if (_refCount) ++(*_refCount);`.
It is the constructor that copy-initialisation (`shared_ptr<T> b = a;`) runs, for an lvalue
and for an rvalue source. -/
def ctor_copy (s : State T) (other : Nat) : Option (State T) :=
  match s.handle other with
  | none => none
  | some o =>
    match o._refCount with
    | none =>
      some { counters := s.counters, values := s.values,
             handles := s.handles ++ [some ⟨o._refCount, o._raw⟩] }
    | some c =>
      match s.counters c with
      | none => none
      | some n =>
        some { counters := s.counters.write c (uint_inc n), values := s.values,
               handles := s.handles ++ [some ⟨o._refCount, o._raw⟩] }

/-- `~shared_ptr(void)` (lines 67-76):
`if (--(*_refCount) == 0) { delete _refCount; delete _raw; } _raw = nullptr;`
and the object's life ends. -/
def dtor (s : State T) (this : Nat) : Option (State T) :=
  match s.handle this with
  | none => none
  | some h =>
    match h._refCount with
    | none => none
    | some c =>
      match s.counters c with
      | none => none
      | some n =>
        if uint_dec n = 0 then
          match Store.delete (s.counters.write c (uint_dec n)) (some c) with
          | none => none
          | some counters =>
            match Store.delete s.values h._raw with
            | none => none
            | some values =>
              some { counters := counters, values := values,
                     handles := s.handles.set this none }
        else
          some { counters := s.counters.write c (uint_dec n), values := s.values,
                 handles := s.handles.set this none }

/-- The release step of `operator=` (lines 82-85):
`if (_refCount && --(*_refCount) == 0) { delete _raw; delete _refCount; }`. -/
def release (s : State T) (h : shared_ptr) : Option (State T) :=
  match h._refCount with
  | none => some s
  | some c =>
    match s.counters c with
    | none => none
    | some n =>
      if uint_dec n = 0 then
        match Store.delete s.values h._raw with
        | none => none
        | some values =>
          match Store.delete (s.counters.write c (uint_dec n)) (some c) with
          | none => none
          | some counters =>
            some { counters := counters, values := values, handles := s.handles }
      else
        some { counters := s.counters.write c (uint_dec n), values := s.values,
               handles := s.handles }

/-- The acquire step of `operator=` (lines 87-92):
`_raw = other._raw; _refCount = other._refCount; if (_refCount) ++(*_refCount);`. -/
def acquire (s : State T) (this : Nat) (o : shared_ptr) : Option (State T) :=
  match o._refCount with
  | none =>
    some { counters := s.counters, values := s.values,
           handles := s.handles.set this (some ⟨o._refCount, o._raw⟩) }
  | some c =>
    match s.counters c with
    | none => none
    | some n =>
      some { counters := s.counters.write c (uint_inc n), values := s.values,
             handles := s.handles.set this (some ⟨o._refCount, o._raw⟩) }

/-- `shared_ptr<T>& operator=(const shared_ptr<T>& other)` (lines 78-95). -/
def assign (s : State T) (this other : Nat) : Option (State T) :=
  match s.handle this with
  | none => none
  | some h =>
    match s.handle other with
    | none => none
    | some o =>
      if this ≠ other then
        match release s h with
        | none => none
        | some s1 => acquire s1 this o
      else some s

end shared_ptr

/-- The operations on `shared_ptr` objects a program can perform. -/
inductive Op (T : Type) where
  | ctor_default (c : Addr)
  | ctor_value (value : T) (c v : Addr)
  | ctor_copy (other : Nat)
  | dtor (this : Nat)
  | assign (this other : Nat)

/-- One operation. -/
def step {T : Type} (s : State T) : Op T → Option (State T)
  | .ctor_default c => shared_ptr.ctor_default s c
  | .ctor_value value c v => shared_ptr.ctor_value s value c v
  | .ctor_copy other => shared_ptr.ctor_copy s other
  | .dtor this => shared_ptr.dtor s this
  | .assign this other => shared_ptr.assign s this other

/-- A sequence of operations, left to right. -/
def run {T : Type} (s : State T) : List (Op T) → Option (State T)
  | [] => some s
  | op :: ops =>
    match step s op with
    | none => none
    | some s1 => run s1 ops

/-- The states a program reaches from the empty free store. -/
def Reachable {T : Type} (s : State T) : Prop :=
  ∃ ops : List (Op T), run State.empty ops = some s

/-! ### Invariants of the `shared_ptr` states -/

/-- Every live `shared_ptr` has a non-null `_refCount`. -/
def CounterNonNull (s : State T) : Prop :=
  ∀ i h, s.handle i = some h → ∃ c, h._refCount = some c

/-- A counter and the number of handles referring to it agree modulo `2 ^ 32`: a live
counter holds that number modulo `2 ^ 32` and at least one handle refers to it; the number of
handles referring to an address without a live counter is a multiple of `2 ^ 32`. -/
def Agrees : Option Nat × Nat → Prop
  | (some n, k) => n = k % UINT_MOD ∧ 1 ≤ k
  | (none, k) => k % UINT_MOD = 0

/-- Every counter agrees with the handles. -/
def CounterInv (s : State T) : Prop := ∀ c, Agrees (s.counters c, s.useCount c)

/-- What one operation does to a counter address: the counter there and the number of
handles referring to it, before and after. -/
inductive CounterStep : Option Nat × Nat → Option Nat × Nat → Prop
  | same (x : Option Nat) (k : Nat) : CounterStep (x, k) (x, k)
  | alloc (k : Nat) : CounterStep (none, k) (some 1, k + 1)
  | inc (n k : Nat) : CounterStep (some n, k) (some (uint_inc n), k + 1)
  | dec (n k : Nat) : uint_dec n ≠ 0 → CounterStep (some n, k + 1) (some (uint_dec n), k)
  | decFree (n k : Nat) : uint_dec n = 0 → CounterStep (some n, k + 1) (none, k)
  | decInc (n k : Nat) : uint_dec n ≠ 0 →
      CounterStep (some n, k) (some (uint_inc (uint_dec n)), k)

/-- At least `F` handles refer to the address, and more than `F` while a counter lives
there. -/
def AboveFloor (F : Nat) : Option Nat × Nat → Prop
  | (some _, k) => F < k
  | (none, k) => F ≤ k

/-- One payload `x` at address `v`, its counter at address `c`, and `m` handles sharing
them: what value-wrapping construction followed by `m - 1` copy constructions builds. -/
def sharing (x : T) (c v : Addr) (m : Nat) : State T :=
  ⟨Store.write Store.empty c (m % UINT_MOD), Store.write Store.empty v x,
    List.replicate m (some ⟨some c, some v⟩)⟩

/-- Every source of a sequence of copy constructions is one of the handles made so far. -/
def sourcesBelow : Nat → List Nat → Prop
  | _, [] => True
  | m, j :: js => j < m ∧ sourcesBelow (m + 1) js

/-- The handles and the free store fit together: every counter a live handle refers to is
live, two live handles with the same non-null `_raw` have the same `_refCount`, and every
non-null `_raw` of a live handle points to a live payload. -/
structure Clean (s : State T) : Prop where
  counterLive : ∀ h c, some h ∈ s.handles → h._refCount = some c → ∃ n, s.counters c = some n
  rawGroup : ∀ h1 h2 v, some h1 ∈ s.handles → some h2 ∈ s.handles →
    h1._raw = some v → h2._raw = some v → h1._refCount = h2._refCount
  rawLive : ∀ h v, some h ∈ s.handles → h._raw = some v → ∃ x, s.values v = some x

/-- For some counter address and some positive multiple `F` of `2 ^ 32`, at least `F` live
handles refer to the address, and more than `F` while a counter is live there.  A release
that frees a counter other handles still refer to leaves such a state. -/
def Overflowed (s : State T) : Prop :=
  ∃ c F, 0 < F ∧ F % UINT_MOD = 0 ∧ AboveFloor F (s.counters c, s.useCount c)

/-- Two live handles with the same `_refCount` have the same `_raw`. -/
def Grouped (s : State T) : Prop :=
  ∀ h1 h2 c, some h1 ∈ s.handles → some h2 ∈ s.handles →
    h1._refCount = some c → h2._refCount = some c → h1._raw = h2._raw

/-- `nex::move` (lines 32-33): `static_cast<T&&>(lvalue)`, an rvalue reference to the same
object. -/
def move (lvalue : Nat) : Nat := lvalue

/-! ## `nex::scoped_ptr<T>` (lines 118-159) -/

/-- The data member of `scoped_ptr<T>`: `T* _raw`; `none` is `nullptr`. -/
structure scoped_ptr where
  _raw : Option Addr
  deriving DecidableEq, Repr

/-- The free store together with the `scoped_ptr` objects created so far. -/
structure ScopedState (T : Type) where
  values : Store T
  handles : List (Option scoped_ptr)

namespace ScopedState

variable {T : Type}

/-- Nothing allocated, no handle. -/
def empty : ScopedState T := ⟨Store.empty, []⟩

/-- The live handle object in slot `i`, if any. -/
def handle (s : ScopedState T) (i : Nat) : Option scoped_ptr := slot s.handles i

end ScopedState

namespace scoped_ptr

variable {T : Type}

/-- `T* get() const` (line 155). -/
def get (h : scoped_ptr) : Option Addr := h._raw

/-- `T& operator*()` (line 154): the payload `_raw` points to. -/
def deref (s : ScopedState T) (h : scoped_ptr) : Option T :=
  match h._raw with
  | none => none
  | some v => s.values v

/-- `scoped_ptr(void)` (lines 124-127): `_raw = nullptr`. -/
def ctor_default (s : ScopedState T) : ScopedState T :=
  { values := s.values, handles := s.handles ++ [some ⟨none⟩] }

/-- `scoped_ptr(T&& value)` (line 128) and `scoped_ptr(Args&&... args)` (lines 136-137), the
latter with `value` the object `T(args...)`: `_raw(new T(...))`. -/
def ctor_value (s : ScopedState T) (value : T) (v : Addr) : Option (ScopedState T) :=
  match s.values.alloc v value with
  | none => none
  | some values => some { values := values, handles := s.handles ++ [some ⟨some v⟩] }

/-- `scoped_ptr(scoped_ptr&& other)` (lines 130-134):
`_raw = other._raw; other._raw = nullptr;`. -/
def ctor_move (s : ScopedState T) (other : Nat) : Option (ScopedState T) :=
  match s.handle other with
  | none => none
  | some o =>
    some { values := s.values,
           handles := (s.handles ++ [some (scoped_ptr.mk o._raw)]).set other (some ⟨none⟩) }

/-- `~scoped_ptr(void)` (lines 139-142): `delete _raw; _raw = nullptr;` and the object's life
ends. -/
def dtor (s : ScopedState T) (this : Nat) : Option (ScopedState T) :=
  match s.handle this with
  | none => none
  | some h =>
    match Store.delete s.values h._raw with
    | none => none
    | some values => some { values := values, handles := s.handles.set this none }

/-- `scoped_ptr<T>& operator=(scoped_ptr<T>&& other)` (lines 144-149):
`_raw = other._raw; other._raw = nullptr;`. -/
def move_assign (s : ScopedState T) (this other : Nat) : Option (ScopedState T) :=
  match s.handle this with
  | none => none
  | some _ =>
    match s.handle other with
    | none => none
    | some o =>
      some { values := s.values,
             handles := (s.handles.set this (some ⟨o._raw⟩)).set other (some ⟨none⟩) }

end scoped_ptr

/-- The operations on `scoped_ptr` objects a program can perform. -/
inductive ScopedOp (T : Type) where
  | ctor_default
  | ctor_value (value : T) (v : Addr)
  | ctor_move (other : Nat)
  | dtor (this : Nat)
  | move_assign (this other : Nat)

/-- One operation. -/
def scopedStep {T : Type} (s : ScopedState T) : ScopedOp T → Option (ScopedState T)
  | .ctor_default => some (scoped_ptr.ctor_default s)
  | .ctor_value value v => scoped_ptr.ctor_value s value v
  | .ctor_move other => scoped_ptr.ctor_move s other
  | .dtor this => scoped_ptr.dtor s this
  | .move_assign this other => scoped_ptr.move_assign s this other

/-- A sequence of operations, left to right. -/
def scopedRun {T : Type} (s : ScopedState T) : List (ScopedOp T) → Option (ScopedState T)
  | [] => some s
  | op :: ops =>
    match scopedStep s op with
    | none => none
    | some s1 => scopedRun s1 ops

/-- No two distinct live `scoped_ptr` objects hold the same non-null pointer. -/
def Exclusive {T : Type} (s : ScopedState T) : Prop :=
  ∀ i j h1 h2 v, s.handle i = some h1 → s.handle j = some h2 →
    h1._raw = some v → h2._raw = some v → i = j

/-- Every non-null pointer held by a live `scoped_ptr` points to a live payload. -/
def Owned {T : Type} (s : ScopedState T) : Prop :=
  ∀ i h v, s.handle i = some h → h._raw = some v → ∃ x, s.values v = some x

/-- The states a program reaches from the empty free store. -/
def ScopedReachable {T : Type} (s : ScopedState T) : Prop :=
  ∃ ops : List (ScopedOp T), scopedRun ScopedState.empty ops = some s

/-! ## The factories (lines 161-171)

An argument pack is a list of argument values; `construct args` is the object `T(args...)`,
or `none` when no constructor of `T` takes `args` or the construction is undefined.  The
handle a factory returns is the object the caller initialises with it; it takes the next
free slot. -/

/-- `make_scoped_ptr<T>(Ts&&... args)` (lines 161-165):
`return scoped_ptr<T>(nex::forward<Ts>(args)...);`.  For an empty pack the expression is
`scoped_ptr<T>()`, for which the non-template `scoped_ptr(void)` (line 124) is chosen over
the constructor template with an empty pack; for a pack that `T` can be constructed from,
`scoped_ptr(T&&)` (line 128) or `scoped_ptr(Args&&...)` (line 136) runs `new T(args...)`.
`v` is the address that `new` returns. -/
def make_scoped_ptr {T α : Type} (construct : List α → Option T) (s : ScopedState T)
    (args : List α) (v : Addr) : Option (ScopedState T) :=
  match args with
  | [] => some (scoped_ptr.ctor_default s)
  | a :: as =>
    match construct (a :: as) with
    | none => none
    | some value => scoped_ptr.ctor_value s value v

/-- `make_shared_ptr<T>(Ts&&... args)` (lines 167-171):
`return shared_ptr<T>(nex::forward<Ts>(args)...);`.  For an empty pack the expression is
`shared_ptr<T>()`, for which the non-template `shared_ptr(void)` (line 48) is chosen over
the constructor template with an empty pack; for a pack that `T` can be constructed from,
`shared_ptr(T&&)` (line 55) or `shared_ptr(Args&&...)` (line 61) runs `new T(args...)`.
`c` and `v` are the addresses that `new` returns. -/
def make_shared_ptr {T α : Type} (construct : List α → Option T) (s : State T)
    (args : List α) (c v : Addr) : Option (State T) :=
  match args with
  | [] => shared_ptr.ctor_default s c
  | a :: as =>
    match construct (a :: as) with
    | none => none
    | some value => shared_ptr.ctor_value s value c v

end nex

namespace Lib

/-- `Lib::Create<T>(Ts&&... args)` (lines 222-225): `return T(nex::forward<Ts&&>(args)...);`. -/
def Create {T α : Type} (construct : List α → Option T) (args : List α) : Option T :=
  construct args

/-- `Lib::create_raw_ptr<T>(Ts&&... args)` (lines 227-230):
`return new T(nex::forward<Ts&&>(args)...);`.  The result is the free store after the
allocation and the address `p` that `new` returns. -/
def create_raw_ptr {T α : Type} (construct : List α → Option T) (values : nex.Store T)
    (args : List α) (p : nex.Addr) : Option (nex.Store T × nex.Addr) :=
  match construct args with
  | none => none
  | some value =>
    match values.alloc p value with
    | none => none
    | some values1 => some (values1, p)

/-- `Lib::create_scoped_ptr<T>(Ts&&... args)` (lines 234-237):
`return nex::make_scoped_ptr<T>(nex::forward<Ts&&>(args)...);`. -/
def create_scoped_ptr {T α : Type} (construct : List α → Option T)
    (s : nex.ScopedState T) (args : List α) (v : nex.Addr) : Option (nex.ScopedState T) :=
  nex.make_scoped_ptr construct s args v

end Lib

namespace Lib.Dev

/-- `Lib::Dev::Test_Object` (lines 182-200): `uint32_t a_; double b_;`.  The handles only
store and hand back the payload; `b_` is the value of the `double` it holds. -/
structure Test_Object where
  a_ : Nat
  b_ : ℚ
  deriving DecidableEq

/-- An argument value passed to `Test_Object`'s constructor: an `int` value, or the `double`
whose value is `q`. -/
inductive Arg where
  | int (n : Int)
  | double (q : ℚ)
  deriving DecidableEq

/-- Conversion of an argument to `uint32_t`: an `int` is reduced modulo `2 ^ 32`; a `double`
is truncated toward zero, and the conversion is undefined (`none`) when the truncated value
is not a `uint32_t` value. -/
def Arg.toUint32 : Arg → Option Nat
  | .int n => some (n % (nex.UINT_MOD : Int)).toNat
  | .double q =>
    if 0 ≤ Int.tdiv q.num q.den ∧ Int.tdiv q.num q.den < (nex.UINT_MOD : Int) then
      some (Int.tdiv q.num q.den).toNat
    else none

/-- Conversion of an argument to `double`: every `int` value is a `double` value. -/
def Arg.toDouble : Arg → ℚ
  | .int n => n
  | .double q => q

/-- `explicit Test_Object(uint32_t a = Defaults::A, double b = Defaults::B)` (lines 184-192),
`Defaults::A = 1` and `Defaults::B = 10.0`: the object built from a pack of at most two
`int` or `double` arguments, each converted to its parameter's type.  The result is `none`
when the pack has more than two arguments (no constructor takes it) or a conversion is
undefined. -/
def Test_Object.ctor : List Arg → Option Test_Object
  | [] => some ⟨1, 10⟩
  | [a] =>
    match a.toUint32 with
    | none => none
    | some x => some ⟨x, 10⟩
  | [a, b] =>
    match a.toUint32 with
    | none => none
    | some x => some ⟨x, b.toDouble⟩
  | _ => none

end Lib.Dev

namespace nex

open Lib.Dev

variable {T : Type}

/-! ## Slots -/

theorem slot_eq_some {α : Type} {l : List (Option α)} {i : Nat} {h : α} :
    slot l i = some h ↔ l[i]? = some (some h) := by
  unfold slot
  split
  · rename_i h1 heq
    simp [heq]
  · rename_i hne
    constructor
    · intro hc
      cases hc
    · intro hc
      exact absurd hc (hne h)

theorem slot_lt {α : Type} {l : List (Option α)} {i : Nat} {h : α}
    (hs : slot l i = some h) : i < l.length := by
  rw [slot_eq_some] at hs
  by_contra hge
  rw [List.getElem?_eq_none (Nat.le_of_not_lt hge)] at hs
  cases hs

theorem slot_append_left {α : Type} (l m : List (Option α)) {i : Nat} (hi : i < l.length) :
    slot (l ++ m) i = slot l i := by
  unfold slot
  rw [List.getElem?_append_left hi]

theorem slot_append_length {α : Type} (l : List (Option α)) (x : Option α) :
    slot (l ++ [x]) l.length = x := by
  unfold slot
  cases x <;> simp

theorem slot_set_self {α : Type} (l : List (Option α)) {i : Nat} (x : Option α)
    (hi : i < l.length) : slot (l.set i x) i = x := by
  unfold slot
  cases x <;> simp [List.getElem?_set, hi]

theorem slot_set_ne {α : Type} (l : List (Option α)) {i j : Nat} (x : Option α)
    (hij : i ≠ j) : slot (l.set i x) j = slot l j := by
  unfold slot
  simp [List.getElem?_set, hij]

theorem slot_append_singleton {α : Type} {l : List (Option α)} {x : Option α} {i : Nat}
    {h : α} (hs : slot (l ++ [x]) i = some h) :
    (i < l.length ∧ slot l i = some h) ∨ (i = l.length ∧ x = some h) := by
  have hlt := slot_lt hs
  simp at hlt
  by_cases hi : i < l.length
  · left
    rw [slot_append_left _ _ hi] at hs
    exact ⟨hi, hs⟩
  · right
    have hil : i = l.length := by omega
    subst hil
    rw [slot_append_length] at hs
    exact ⟨rfl, hs⟩

theorem slot_set {α : Type} {l : List (Option α)} {x : Option α} {i j : Nat}
    {h : α} (hs : slot (l.set i x) j = some h) :
    (j = i ∧ x = some h) ∨ (j ≠ i ∧ slot l j = some h) := by
  by_cases hij : j = i
  · left
    subst hij
    have hlt := slot_lt hs
    simp at hlt
    rw [slot_set_self _ _ hlt] at hs
    exact ⟨rfl, hs⟩
  · right
    rw [slot_set_ne _ _ (Ne.symm hij)] at hs
    exact ⟨hij, hs⟩

/-! ## Statements about `scoped_ptr` -/

/-- C8. Move construction of `scoped_ptr` transfers ownership: the new handle's `get()` is the
source's former pointer (so it dereferences to the source's former payload), the source's
`get()` is null afterwards, every other handle is as before, and the free store is
unchanged. -/
theorem scoped_ctor_move_transfers (s : ScopedState T) (p : Nat) (h : scoped_ptr)
    (hp : s.handle p = some h) :
    ∃ s1, scoped_ptr.ctor_move s p = some s1 ∧
      (∃ q, s1.handle s.handles.length = some q ∧ q.get = h.get ∧
        scoped_ptr.deref s1 q = scoped_ptr.deref s h) ∧
      (∃ p1, s1.handle p = some p1 ∧ p1.get = none) ∧
      s1.values = s.values ∧
      s1.handles.length = s.handles.length + 1 ∧
      ∀ i, i ≠ p → i < s.handles.length → s1.handle i = s.handle i := by
  have hlt : p < s.handles.length := slot_lt hp
  refine ⟨⟨s.values, (s.handles ++ [some (scoped_ptr.mk h._raw)]).set p (some ⟨none⟩)⟩,
    ?_, ?_, ?_, rfl, ?_, ?_⟩
  · simp [scoped_ptr.ctor_move, hp]
  · refine ⟨⟨h._raw⟩, ?_, rfl, rfl⟩
    show slot _ _ = _
    rw [slot_set_ne _ _ (Nat.ne_of_lt hlt), slot_append_length]
  · refine ⟨⟨none⟩, ?_, rfl⟩
    show slot _ _ = _
    rw [slot_set_self]
    simp
    omega
  · simp
  · intro i hi hil
    show slot _ _ = slot _ _
    rw [slot_set_ne _ _ (Ne.symm hi), slot_append_left _ _ hil]

/-- Witness for C8: `p` wraps `V(100, 10.0)`; after `q` is move-constructed from `p`, `p` is
empty and `q` dereferences to `V(100, 10.0)`. -/
theorem scoped_ctor_move_transfers_witness :
    ∃ s0 s1 : ScopedState Test_Object,
      scoped_ptr.ctor_value ScopedState.empty ⟨100, 10⟩ 7 = some s0 ∧
      scoped_ptr.ctor_move s0 0 = some s1 ∧
      (∃ q, s1.handle 1 = some q ∧ scoped_ptr.deref s1 q = some ⟨100, 10⟩) ∧
      (∃ p1, s1.handle 0 = some p1 ∧ p1.get = none) ∧
      s1.values = s0.values := by
  refine ⟨⟨Store.write Store.empty 7 ⟨100, 10⟩, [some ⟨some 7⟩]⟩, ?_⟩
  obtain ⟨s1, h1, ⟨q, hq, -, hd⟩, hp, hv, -, -⟩ :=
    scoped_ctor_move_transfers (T := Test_Object)
      ⟨Store.write Store.empty 7 ⟨100, 10⟩, [some ⟨some 7⟩]⟩ 0 ⟨some 7⟩ rfl
  refine ⟨s1, rfl, h1, ⟨q, hq, ?_⟩, hp, hv⟩
  rw [hd]
  simp [scoped_ptr.deref, Store.write]

theorem Store.delete_some {α : Type} {m m1 : Store α} {p : Option Addr}
    (hd : Store.delete m p = some m1) :
    (p = none ∧ m1 = m) ∨ (∃ a x, p = some a ∧ m a = some x ∧ m1 = m.free a) := by
  cases p with
  | none =>
    left
    simp [Store.delete] at hd
    exact ⟨rfl, hd.symm⟩
  | some a =>
    right
    unfold Store.delete at hd
    cases hma : m a with
    | none => simp [hma] at hd
    | some x =>
      simp [hma] at hd
      exact ⟨a, x, rfl, hma, hd.symm⟩

theorem Store.alloc_some {α : Type} {m m1 : Store α} {p : Addr} {x : α}
    (ha : Store.alloc m p x = some m1) : m p = none ∧ m1 = m.write p x := by
  unfold Store.alloc at ha
  cases hmp : m p with
  | none =>
    simp [hmp] at ha
    exact ⟨rfl, ha.symm⟩
  | some y => simp [hmp] at ha

/-- The two `scoped_ptr` invariants are kept by every operation. -/
theorem scopedStep_invariant (s s1 : ScopedState T) (op : ScopedOp T)
    (hx : Exclusive s) (ho : Owned s) (hstep : scopedStep s op = some s1) :
    Exclusive s1 ∧ Owned s1 := by
  cases op with
  | ctor_default =>
    simp only [scopedStep, scoped_ptr.ctor_default, Option.some.injEq] at hstep
    subst hstep
    constructor
    · intro i j h1 h2 v hi hj hv1 hv2
      rcases slot_append_singleton hi with ⟨_, hi1⟩ | ⟨_, hi1⟩
      · rcases slot_append_singleton hj with ⟨_, hj1⟩ | ⟨_, hj1⟩
        · exact hx i j h1 h2 v hi1 hj1 hv1 hv2
        · cases hj1
          cases hv2
      · cases hi1
        cases hv1
    · intro i h v hi hv
      rcases slot_append_singleton hi with ⟨_, hi1⟩ | ⟨_, hi1⟩
      · exact ho i h v hi1 hv
      · cases hi1
        cases hv
  | ctor_value value a =>
    simp only [scopedStep, scoped_ptr.ctor_value] at hstep
    cases hal : s.values.alloc a value with
    | none => simp [hal] at hstep
    | some values =>
      simp only [hal, Option.some.injEq] at hstep
      subst hstep
      obtain ⟨hfree, hvals⟩ := Store.alloc_some hal
      subst hvals
      constructor
      · intro i j h1 h2 v hi hj hv1 hv2
        rcases slot_append_singleton hi with ⟨_, hi1⟩ | ⟨hil, hi1⟩
        · rcases slot_append_singleton hj with ⟨_, hj1⟩ | ⟨_, hj1⟩
          · exact hx i j h1 h2 v hi1 hj1 hv1 hv2
          · cases hj1
            cases hv2
            obtain ⟨x, hxv⟩ := ho i h1 a hi1 hv1
            rw [hfree] at hxv
            cases hxv
        · rcases slot_append_singleton hj with ⟨_, hj1⟩ | ⟨hjl, _⟩
          · cases hi1
            cases hv1
            obtain ⟨x, hxv⟩ := ho j h2 a hj1 hv2
            rw [hfree] at hxv
            cases hxv
          · rw [hil, hjl]
      · intro i h v hi hv
        rcases slot_append_singleton hi with ⟨_, hi1⟩ | ⟨_, hi1⟩
        · obtain ⟨x, hxv⟩ := ho i h v hi1 hv
          by_cases hva : v = a
          · exact ⟨value, by simp [Store.write, hva]⟩
          · exact ⟨x, by simp [Store.write, hva, hxv]⟩
        · cases hi1
          cases hv
          exact ⟨value, by simp [Store.write]⟩
  | ctor_move other =>
    simp only [scopedStep, scoped_ptr.ctor_move] at hstep
    cases hoth : s.handle other with
    | none => simp [hoth] at hstep
    | some o =>
      simp only [hoth, Option.some.injEq] at hstep
      subst hstep
      have key : ∀ i h v,
          slot ((s.handles ++ [some (scoped_ptr.mk o._raw)]).set other (some ⟨none⟩)) i
            = some h → h._raw = some v →
          (i < s.handles.length ∧ i ≠ other ∧ s.handle i = some h) ∨
          (i = s.handles.length ∧ o._raw = some v) := by
        intro i h v hi hv
        rcases slot_set hi with ⟨_, hi1⟩ | ⟨hne, hi1⟩
        · cases hi1
          cases hv
        · rcases slot_append_singleton hi1 with ⟨hlt, hi2⟩ | ⟨hil, hi2⟩
          · exact Or.inl ⟨hlt, hne, hi2⟩
          · cases hi2
            exact Or.inr ⟨hil, hv⟩
      constructor
      · intro i j h1 h2 v hi hj hv1 hv2
        rcases key i h1 v hi hv1 with ⟨_, hio, hi1⟩ | ⟨hil, hi1⟩
        · rcases key j h2 v hj hv2 with ⟨_, _, hj1⟩ | ⟨_, hj1⟩
          · exact hx i j h1 h2 v hi1 hj1 hv1 hv2
          · exact absurd (hx i other h1 o v hi1 hoth hv1 hj1) hio
        · rcases key j h2 v hj hv2 with ⟨_, hjo, hj1⟩ | ⟨hjl, _⟩
          · exact absurd (hx j other h2 o v hj1 hoth hv2 hi1) hjo
          · rw [hil, hjl]
      · intro i h v hi hv
        rcases key i h v hi hv with ⟨_, _, hi1⟩ | ⟨_, hi1⟩
        · exact ho i h v hi1 hv
        · exact ho other o v hoth hi1
  | dtor this =>
    simp only [scopedStep, scoped_ptr.dtor] at hstep
    cases hth : s.handle this with
    | none => simp [hth] at hstep
    | some h0 =>
      simp only [hth] at hstep
      cases hdel : Store.delete s.values h0._raw with
      | none => simp [hdel] at hstep
      | some values =>
        simp only [hdel, Option.some.injEq] at hstep
        subst hstep
        have key : ∀ i h, slot (s.handles.set this none) i = some h →
            i ≠ this ∧ s.handle i = some h := by
          intro i h hi
          rcases slot_set hi with ⟨_, hi1⟩ | ⟨hne, hi1⟩
          · cases hi1
          · exact ⟨hne, hi1⟩
        constructor
        · intro i j h1 h2 v hi hj hv1 hv2
          exact hx i j h1 h2 v (key i h1 hi).2 (key j h2 hj).2 hv1 hv2
        · intro i h v hi hv
          obtain ⟨hne, hi1⟩ := key i h hi
          obtain ⟨x, hxv⟩ := ho i h v hi1 hv
          rcases Store.delete_some hdel with ⟨_, hm⟩ | ⟨a, y, hra, _, hm⟩
          · subst hm
            exact ⟨x, hxv⟩
          · subst hm
            have hva : v ≠ a := by
              intro hva
              subst hva
              exact hne (hx i this h h0 v hi1 hth hv hra)
            exact ⟨x, by simp [Store.free, hva, hxv]⟩
  | move_assign this other =>
    simp only [scopedStep, scoped_ptr.move_assign] at hstep
    cases hth : s.handle this with
    | none => simp [hth] at hstep
    | some h0 =>
      cases hoth : s.handle other with
      | none => simp [hth, hoth] at hstep
      | some o =>
        simp only [hth, hoth, Option.some.injEq] at hstep
        subst hstep
        have key : ∀ i h v,
            slot ((s.handles.set this (some (scoped_ptr.mk o._raw))).set other (some ⟨none⟩)) i
              = some h → h._raw = some v →
            (i ≠ this ∧ i ≠ other ∧ s.handle i = some h) ∨
            (i = this ∧ this ≠ other ∧ o._raw = some v) := by
          intro i h v hi hv
          rcases slot_set hi with ⟨_, hi1⟩ | ⟨hne, hi1⟩
          · cases hi1
            cases hv
          · rcases slot_set hi1 with ⟨hit, hi2⟩ | ⟨hnt, hi2⟩
            · cases hi2
              exact Or.inr ⟨hit, hit ▸ hne, hv⟩
            · exact Or.inl ⟨hnt, hne, hi2⟩
        constructor
        · intro i j h1 h2 v hi hj hv1 hv2
          rcases key i h1 v hi hv1 with ⟨_, hio, hi1⟩ | ⟨hit, _, hi1⟩
          · rcases key j h2 v hj hv2 with ⟨_, _, hj1⟩ | ⟨_, _, hj1⟩
            · exact hx i j h1 h2 v hi1 hj1 hv1 hv2
            · exact absurd (hx i other h1 o v hi1 hoth hv1 hj1) hio
          · rcases key j h2 v hj hv2 with ⟨_, hjo, hj1⟩ | ⟨hjt, _, _⟩
            · exact absurd (hx j other h2 o v hj1 hoth hv2 hi1) hjo
            · rw [hit, hjt]
        · intro i h v hi hv
          rcases key i h v hi hv with ⟨_, _, hi1⟩ | ⟨_, _, hi1⟩
          · exact ho i h v hi1 hv
          · exact ho other o v hoth hi1

theorem scopedRun_invariant (ops : List (ScopedOp T)) :
    ∀ s s1 : ScopedState T, Exclusive s → Owned s → scopedRun s ops = some s1 →
      Exclusive s1 ∧ Owned s1 := by
  induction ops with
  | nil =>
    intro s s1 hx ho hrun
    simp only [scopedRun, Option.some.injEq] at hrun
    subst hrun
    exact ⟨hx, ho⟩
  | cons op ops ih =>
    intro s s1 hx ho hrun
    simp only [scopedRun] at hrun
    cases hst : scopedStep s op with
    | none => simp [hst] at hrun
    | some s2 =>
      simp only [hst] at hrun
      obtain ⟨hx2, ho2⟩ := scopedStep_invariant s s2 op hx ho hst
      exact ih s2 s1 hx2 ho2 hrun

/-- C9. Exclusive ownership: in every state reached from the empty free store by any finite
sequence of `scoped_ptr` operations (default, value-wrapping and move construction, move
assignment, destruction), no two distinct live handles hold the same non-null pointer. -/
theorem scoped_exclusive_ownership (s : ScopedState T) (hr : ScopedReachable s) :
    ∀ i j h1 h2 v, s.handle i = some h1 → s.handle j = some h2 →
      h1.get = some v → h2.get = some v → i = j := by
  obtain ⟨ops, hrun⟩ := hr
  have h0x : Exclusive (ScopedState.empty : ScopedState T) := by
    intro i j h1 h2 v hi
    simp [ScopedState.handle, ScopedState.empty, slot] at hi
  have h0o : Owned (ScopedState.empty : ScopedState T) := by
    intro i h v hi
    simp [ScopedState.handle, ScopedState.empty, slot] at hi
  exact (scopedRun_invariant ops _ s h0x h0o hrun).1

/-- Witness for C9: two handles are made, the first is moved into a third, the second is
move-assigned from the third, and the third is destroyed. -/
theorem scoped_exclusive_ownership_witness :
    ∃ s : ScopedState Test_Object,
      scopedRun ScopedState.empty
        [.ctor_value ⟨100, 10⟩ 0, .ctor_value ⟨1, 10⟩ 1, .ctor_move 0, .move_assign 1 2,
         .dtor 2] = some s ∧
      s.handle 1 = some ⟨some 0⟩ ∧
      ∀ i j h1 h2 v, s.handle i = some h1 → s.handle j = some h2 →
        h1.get = some v → h2.get = some v → i = j :=
  ⟨⟨Store.write (Store.write Store.empty 0 ⟨100, 10⟩) 1 ⟨1, 10⟩,
      [some ⟨none⟩, some ⟨some 0⟩, none]⟩, rfl, rfl,
    scoped_exclusive_ownership _
      ⟨[.ctor_value ⟨100, 10⟩ 0, .ctor_value ⟨1, 10⟩ 1, .ctor_move 0, .move_assign 1 2,
        .dtor 2], rfl⟩⟩

/-- C10. Move assignment `d = move(s)`, `d` wrapping `V(1, 10.0)` at address 0 and `s`
wrapping `V(100, 10.0)` at address 1: afterwards `d` holds `s`'s former pointer and `s` is
empty, but the payload `d` held before is still live and no live handle holds it: the
assignment did not release it. -/
theorem scoped_move_assign_keeps_old_payload :
    ∃ s0 s1 : ScopedState Test_Object,
      scopedRun ScopedState.empty [.ctor_value ⟨1, 10⟩ 0, .ctor_value ⟨100, 10⟩ 1] = some s0 ∧
      s0.handle 0 = some ⟨some 0⟩ ∧ s0.handle 1 = some ⟨some 1⟩ ∧
      scoped_ptr.move_assign s0 0 (move 1) = some s1 ∧
      s1.handle 0 = some ⟨some 1⟩ ∧ s1.handle 1 = some ⟨none⟩ ∧
      s1.values 0 = some ⟨1, 10⟩ ∧
      ∀ i h, s1.handle i = some h → h.get ≠ some 0 := by
  refine ⟨⟨Store.write (Store.write Store.empty 0 ⟨1, 10⟩) 1 ⟨100, 10⟩,
      [some ⟨some 0⟩, some ⟨some 1⟩]⟩,
    ⟨Store.write (Store.write Store.empty 0 ⟨1, 10⟩) 1 ⟨100, 10⟩,
      [some ⟨some 1⟩, some ⟨none⟩]⟩, rfl, rfl, rfl, rfl, rfl, rfl, by decide, ?_⟩
  intro i h hi
  match i, hi with
  | 0, hi =>
    cases hi
    decide
  | 1, hi =>
    cases hi
    decide
  | i + 2, hi => simp [ScopedState.handle, slot] at hi

theorem ScopedReachable.invariant {s : ScopedState T} (hr : ScopedReachable s) :
    Exclusive s ∧ Owned s := by
  obtain ⟨ops, hrun⟩ := hr
  have h0x : Exclusive (ScopedState.empty : ScopedState T) := by
    intro i j h1 h2 v hi
    simp [ScopedState.handle, ScopedState.empty, slot] at hi
  have h0o : Owned (ScopedState.empty : ScopedState T) := by
    intro i h v hi
    simp [ScopedState.handle, ScopedState.empty, slot] at hi
  exact scopedRun_invariant ops _ s h0x h0o hrun

/-- C11. Self-move `p = move(p)` of a `scoped_ptr` wrapping `V(100, 10.0)` at address 7:
afterwards `p` is empty, and the payload is still live though no live handle holds it.  The
assignment nulled the only reference. -/
theorem scoped_self_move_empties :
    ∃ s0 s1 : ScopedState Test_Object,
      scopedRun ScopedState.empty [.ctor_value ⟨100, 10⟩ 7] = some s0 ∧
      s0.handle 0 = some ⟨some 7⟩ ∧
      scoped_ptr.move_assign s0 0 (move 0) = some s1 ∧
      s1.handle 0 = some ⟨none⟩ ∧
      s1.values 7 = some ⟨100, 10⟩ ∧
      ∀ i h, s1.handle i = some h → h.get ≠ some 7 := by
  refine ⟨⟨Store.write Store.empty 7 ⟨100, 10⟩, [some ⟨some 7⟩]⟩,
    ⟨Store.write Store.empty 7 ⟨100, 10⟩, [some ⟨none⟩]⟩, rfl, rfl, rfl, rfl, by decide, ?_⟩
  intro i h hi
  match i, hi with
  | 0, hi =>
    cases hi
    decide
  | i + 1, hi => simp [ScopedState.handle, slot] at hi

/-- C12. Destroying a live `scoped_ptr` of a reachable state is defined.  If the handle is
non-empty, the payload it owns is live and is the one object deallocated: every other
payload and every other handle is as before, and afterwards no live handle holds the
deallocated address, so no later destruction deletes it again.  If the handle is empty
(default-constructed or moved-from), the free store is unchanged. -/
theorem scoped_dtor_spec (s : ScopedState T) (hr : ScopedReachable s) (i : Nat)
    (h : scoped_ptr) (hi : s.handle i = some h) :
    ∃ s1, scoped_ptr.dtor s i = some s1 ∧
      s1.handle i = none ∧ (∀ j, j ≠ i → s1.handle j = s.handle j) ∧
      (h.get = none → s1.values = s.values) ∧
      ∀ v, h.get = some v →
        (∃ x, s.values v = some x) ∧ s1.values v = none ∧
        (∀ q, q ≠ v → s1.values q = s.values q) ∧
        ∀ j hj, s1.handle j = some hj → hj.get ≠ some v := by
  obtain ⟨hx, ho⟩ := hr.invariant
  have hlt : i < s.handles.length := slot_lt hi
  have hset : ∀ values : Store T,
      (⟨values, s.handles.set i none⟩ : ScopedState T).handle i = none ∧
      ∀ j, j ≠ i → (⟨values, s.handles.set i none⟩ : ScopedState T).handle j = s.handle j := by
    intro values
    exact ⟨slot_set_self _ _ hlt, fun j hj => slot_set_ne _ _ (Ne.symm hj)⟩
  cases hraw : h._raw with
  | none =>
    refine ⟨⟨s.values, s.handles.set i none⟩, ?_, (hset _).1, (hset _).2, fun _ => rfl, ?_⟩
    · simp [scoped_ptr.dtor, hi, hraw, Store.delete]
    · intro v hv
      simp [scoped_ptr.get, hraw] at hv
  | some v0 =>
    obtain ⟨x, hxv⟩ := ho i h v0 hi hraw
    refine ⟨⟨s.values.free v0, s.handles.set i none⟩, ?_, (hset _).1, (hset _).2, ?_, ?_⟩
    · simp [scoped_ptr.dtor, hi, hraw, Store.delete, hxv]
    · intro hn
      simp [scoped_ptr.get, hraw] at hn
    · intro v hv
      simp only [scoped_ptr.get, hraw, Option.some.injEq] at hv
      subst hv
      refine ⟨⟨x, hxv⟩, by simp [Store.free], fun q hq => by simp [Store.free, hq], ?_⟩
      intro j hj hlj hjv
      rcases slot_set hlj with ⟨_, hc⟩ | ⟨hne, hold⟩
      · cases hc
      · exact hne (hx j i hj h v0 hold hi hjv hraw)

/-- Witness for C12: `p` wraps `V(100, 10.0)` and is moved into `q`; destroying `q`
deallocates the payload, and destroying the moved-from `p` leaves the free store as it
is. -/
theorem scoped_dtor_spec_witness :
    ∃ s s1 s2 : ScopedState Test_Object,
      scopedRun ScopedState.empty [.ctor_value ⟨100, 10⟩ 7, .ctor_move 0] = some s ∧
      s.handle 0 = some ⟨none⟩ ∧ s.handle 1 = some ⟨some 7⟩ ∧
      scoped_ptr.dtor s 1 = some s1 ∧ s1.values 7 = none ∧
      scoped_ptr.dtor s 0 = some s2 ∧ s2.values = s.values := by
  have hr : ScopedReachable (⟨Store.write Store.empty 7 (Test_Object.mk 100 10),
      [some ⟨none⟩, some ⟨some 7⟩]⟩ : ScopedState Test_Object) :=
    ⟨[.ctor_value ⟨100, 10⟩ 7, .ctor_move 0], rfl⟩
  obtain ⟨s1, h1, -, -, -, hv1⟩ := scoped_dtor_spec _ hr 1 ⟨some 7⟩ rfl
  obtain ⟨s2, h2, -, -, hv2, -⟩ := scoped_dtor_spec _ hr 0 ⟨none⟩ rfl
  exact ⟨_, s1, s2, rfl, rfl, rfl, h1, (hv1 7 rfl).2.1, h2, hv2 rfl⟩

/-- C13. The empty pack: `Test_Object()` is `V(1, 10.0)`, `Create<Object>()` returns it and
`create_raw_ptr<Object>()` allocates it, but `create_scoped_ptr<Object>()` and
`make_scoped_ptr<Object>()` return an empty handle and allocate nothing.  With the pack
`(300, 30.0)` the returned handle dereferences to `V(300, 30.0)`. -/
theorem scoped_factory_empty_pack :
    Lib.Create Test_Object.ctor [] = some ⟨1, 10⟩ ∧
    (∃ values, Lib.create_raw_ptr Test_Object.ctor Store.empty [] 7 = some (values, 7) ∧
      values 7 = some ⟨1, 10⟩) ∧
    (∃ s1, Lib.create_scoped_ptr Test_Object.ctor ScopedState.empty [] 7 = some s1 ∧
      s1.handle 0 = some ⟨none⟩ ∧ scoped_ptr.deref s1 ⟨none⟩ = none ∧
      s1.values = Store.empty) ∧
    (∃ s2, make_scoped_ptr Test_Object.ctor ScopedState.empty [] 7 = some s2 ∧
      s2.handle 0 = some ⟨none⟩ ∧ s2.values = Store.empty) ∧
    ∃ s3, Lib.create_scoped_ptr Test_Object.ctor ScopedState.empty
        [.int 300, .double 30] 7 = some s3 ∧
      s3.handle 0 = some ⟨some 7⟩ ∧ scoped_ptr.deref s3 ⟨some 7⟩ = some ⟨300, 30⟩ := by
  exact ⟨rfl, ⟨Store.write Store.empty 7 ⟨1, 10⟩, rfl, by decide⟩,
    ⟨⟨Store.empty, [some ⟨none⟩]⟩, rfl, rfl, rfl, rfl⟩,
    ⟨⟨Store.empty, [some ⟨none⟩]⟩, rfl, rfl, rfl⟩,
    ⟨⟨Store.write Store.empty 7 ⟨300, 30⟩, [some ⟨some 7⟩]⟩, rfl, rfl, by decide⟩⟩

/-! ## Lemmas about `shared_ptr` -/

theorem agrees_of_counterStep {a b : Option Nat × Nat} (ha : Agrees a) (hab : CounterStep a b) :
    Agrees b := by
  cases hab with
  | same x k => exact ha
  | alloc k =>
    simp only [Agrees, UINT_MOD] at ha ⊢
    omega
  | inc n k =>
    simp only [Agrees, UINT_MOD, uint_inc] at ha ⊢
    omega
  | dec n k hne =>
    simp only [Agrees, UINT_MOD, uint_dec] at ha hne ⊢
    omega
  | decFree n k he =>
    simp only [Agrees, UINT_MOD, uint_dec] at ha he ⊢
    omega
  | decInc n k hne =>
    simp only [Agrees, UINT_MOD, uint_dec, uint_inc] at ha hne ⊢
    omega

theorem aboveFloor_of_counterStep {F : Nat} {a b : Option Nat × Nat} (hF : F % UINT_MOD = 0)
    (ha : Agrees a) (hf : AboveFloor F a) (hab : CounterStep a b) : AboveFloor F b := by
  cases hab with
  | same x k => exact hf
  | alloc k =>
    simp only [AboveFloor] at hf ⊢
    omega
  | inc n k =>
    simp only [AboveFloor] at hf ⊢
    omega
  | dec n k hne =>
    simp only [Agrees, AboveFloor, UINT_MOD, uint_dec] at ha hf hne hF ⊢
    omega
  | decFree n k he =>
    simp only [AboveFloor] at hf ⊢
    omega
  | decInc n k hne =>
    simp only [AboveFloor] at hf ⊢
    omega

/-! ## What each `shared_ptr` operation returns -/

theorem Store.free_write {α : Type} (m : Store α) (p : Addr) (x : α) :
    (m.write p x).free p = m.free p := by
  funext q
  by_cases hq : q = p <;> simp [Store.free, Store.write, hq]

theorem shared_ptr.ctor_default_inv {s s1 : State T} {c : Addr}
    (h : shared_ptr.ctor_default s c = some s1) :
    s.counters c = none ∧
    s1 = ⟨s.counters.write c 1, s.values, s.handles ++ [some ⟨some c, none⟩]⟩ := by
  unfold shared_ptr.ctor_default at h
  cases hal : s.counters.alloc c 1 with
  | none => simp [hal] at h
  | some counters =>
    obtain ⟨hfree, hw⟩ := Store.alloc_some hal
    simp only [hal, Option.some.injEq] at h
    subst hw
    exact ⟨hfree, h.symm⟩

theorem shared_ptr.ctor_value_inv {s s1 : State T} {value : T} {c v : Addr}
    (h : shared_ptr.ctor_value s value c v = some s1) :
    s.counters c = none ∧ s.values v = none ∧
    s1 = ⟨s.counters.write c 1, s.values.write v value,
      s.handles ++ [some ⟨some c, some v⟩]⟩ := by
  unfold shared_ptr.ctor_value at h
  cases hal : s.counters.alloc c 1 with
  | none => simp [hal] at h
  | some counters =>
    obtain ⟨hfree, hw⟩ := Store.alloc_some hal
    cases hav : s.values.alloc v value with
    | none => simp [hal, hav] at h
    | some values =>
      obtain ⟨hvfree, hvw⟩ := Store.alloc_some hav
      simp only [hal, hav, Option.some.injEq] at h
      subst hw hvw
      exact ⟨hfree, hvfree, h.symm⟩

theorem shared_ptr.ctor_copy_inv {s s1 : State T} {other : Nat}
    (h : shared_ptr.ctor_copy s other = some s1) :
    ∃ o, s.handle other = some o ∧
      ((o._refCount = none ∧ s1 = ⟨s.counters, s.values, s.handles ++ [some o]⟩) ∨
       (∃ c n, o._refCount = some c ∧ s.counters c = some n ∧
          s1 = ⟨s.counters.write c (uint_inc n), s.values, s.handles ++ [some o]⟩)) := by
  unfold shared_ptr.ctor_copy at h
  cases ho : s.handle other with
  | none => simp [ho] at h
  | some o =>
    refine ⟨o, rfl, ?_⟩
    simp only [ho] at h
    cases hc : o._refCount with
    | none =>
      simp only [hc, Option.some.injEq] at h
      left
      refine ⟨rfl, ?_⟩
      rw [← h, ← hc]
    | some c =>
      simp only [hc] at h
      cases hn : s.counters c with
      | none => simp [hn] at h
      | some n =>
        simp only [hn, Option.some.injEq] at h
        right
        refine ⟨c, n, rfl, hn, ?_⟩
        rw [← h, ← hc]

theorem shared_ptr.dtor_inv {s s1 : State T} {this : Nat}
    (h : shared_ptr.dtor s this = some s1) :
    ∃ h0 c n, s.handle this = some h0 ∧ h0._refCount = some c ∧ s.counters c = some n ∧
      ((uint_dec n ≠ 0 ∧
          s1 = ⟨s.counters.write c (uint_dec n), s.values, s.handles.set this none⟩) ∨
       (uint_dec n = 0 ∧ ∃ values, Store.delete s.values h0._raw = some values ∧
          s1 = ⟨s.counters.free c, values, s.handles.set this none⟩)) := by
  unfold shared_ptr.dtor at h
  cases hh : s.handle this with
  | none => simp [hh] at h
  | some h0 =>
    simp only [hh] at h
    cases hc : h0._refCount with
    | none => simp [hc] at h
    | some c =>
      simp only [hc] at h
      cases hn : s.counters c with
      | none => simp [hn] at h
      | some n =>
        simp only [hn] at h
        refine ⟨h0, c, n, rfl, hc, hn, ?_⟩
        by_cases hz : uint_dec n = 0
        · right
          refine ⟨hz, ?_⟩
          simp only [hz, if_true] at h
          have hdc : Store.delete (s.counters.write c 0) (some c)
              = some (s.counters.free c) := by
            simp [Store.delete, Store.write, Store.free_write]
          rw [hdc] at h
          simp only at h
          cases hdv : Store.delete s.values h0._raw with
          | none => simp [hdv] at h
          | some values =>
            simp only [hdv, Option.some.injEq] at h
            exact ⟨values, rfl, h.symm⟩
        · left
          simp only [hz, if_false, Option.some.injEq] at h
          exact ⟨hz, h.symm⟩

theorem shared_ptr.release_inv {s s1 : State T} {h0 : shared_ptr}
    (h : shared_ptr.release s h0 = some s1) :
    (h0._refCount = none ∧ s1 = s) ∨
    ∃ c n, h0._refCount = some c ∧ s.counters c = some n ∧
      ((uint_dec n ≠ 0 ∧ s1 = ⟨s.counters.write c (uint_dec n), s.values, s.handles⟩) ∨
       (uint_dec n = 0 ∧ ∃ values, Store.delete s.values h0._raw = some values ∧
          s1 = ⟨s.counters.free c, values, s.handles⟩)) := by
  unfold shared_ptr.release at h
  cases hc : h0._refCount with
  | none =>
    simp only [hc, Option.some.injEq] at h
    exact Or.inl ⟨rfl, h.symm⟩
  | some c =>
    simp only [hc] at h
    cases hn : s.counters c with
    | none => simp [hn] at h
    | some n =>
      simp only [hn] at h
      refine Or.inr ⟨c, n, rfl, hn, ?_⟩
      by_cases hz : uint_dec n = 0
      · right
        refine ⟨hz, ?_⟩
        simp only [hz, if_true] at h
        have hdc : Store.delete (s.counters.write c 0) (some c)
            = some (s.counters.free c) := by
          simp [Store.delete, Store.write, Store.free_write]
        rw [hdc] at h
        cases hdv : Store.delete s.values h0._raw with
        | none => simp [hdv] at h
        | some values =>
          simp only [hdv, Option.some.injEq] at h
          exact ⟨values, rfl, h.symm⟩
      · left
        simp only [hz, if_false, Option.some.injEq] at h
        exact ⟨hz, h.symm⟩

theorem shared_ptr.acquire_inv {s s1 : State T} {this : Nat} {o : shared_ptr}
    (h : shared_ptr.acquire s this o = some s1) :
    (o._refCount = none ∧ s1 = ⟨s.counters, s.values, s.handles.set this (some o)⟩) ∨
    ∃ c n, o._refCount = some c ∧ s.counters c = some n ∧
      s1 = ⟨s.counters.write c (uint_inc n), s.values, s.handles.set this (some o)⟩ := by
  unfold shared_ptr.acquire at h
  cases hc : o._refCount with
  | none =>
    simp only [hc, Option.some.injEq] at h
    left
    refine ⟨rfl, ?_⟩
    rw [← h, ← hc]
  | some c =>
    simp only [hc] at h
    cases hn : s.counters c with
    | none => simp [hn] at h
    | some n =>
      simp only [hn, Option.some.injEq] at h
      right
      refine ⟨c, n, rfl, hn, ?_⟩
      rw [← h, ← hc]

theorem shared_ptr.assign_inv {s s1 : State T} {this other : Nat}
    (h : shared_ptr.assign s this other = some s1) :
    ∃ h0 o, s.handle this = some h0 ∧ s.handle other = some o ∧
      ((this = other ∧ s1 = s) ∨
       (this ≠ other ∧ ∃ s0, shared_ptr.release s h0 = some s0 ∧
          shared_ptr.acquire s0 this o = some s1)) := by
  unfold shared_ptr.assign at h
  cases hh : s.handle this with
  | none => simp [hh] at h
  | some h0 =>
    cases ho : s.handle other with
    | none => simp [hh, ho] at h
    | some o =>
      simp only [hh, ho] at h
      refine ⟨h0, o, rfl, rfl, ?_⟩
      by_cases hne : this = other
      · left
        simp only [hne, ne_eq, not_true_eq_false, if_false, Option.some.injEq] at h
        exact ⟨hne, h.symm⟩
      · right
        simp only [ne_eq, hne, not_false_eq_true, if_true] at h
        cases hr : shared_ptr.release s h0 with
        | none => simp [hr] at h
        | some s0 =>
          simp only [hr] at h
          exact ⟨hne, s0, rfl, h⟩

/-! ## Counting the handles that refer to a counter -/

theorem countP_set_add {α : Type} (p : α → Bool) (l : List α) (i : Nat) (x y : α)
    (hi : l[i]? = some y) :
    (l.set i x).countP p + (p y).toNat = l.countP p + (p x).toNat := by
  induction l generalizing i with
  | nil => simp at hi
  | cons a l ih =>
    cases i with
    | zero =>
      simp at hi
      subst hi
      simp [List.countP_cons]
      cases p a <;> cases p x <;> simp
    | succ i =>
      simp at hi
      have := ih i hi
      simp [List.countP_cons]
      omega

theorem countRefs_append (l : List (Option shared_ptr)) (h : shared_ptr) (q : Addr) :
    (l ++ [some h]).countP (State.refersTo q)
      = l.countP (State.refersTo q) + (if h._refCount = some q then 1 else 0) := by
  rw [List.countP_append]
  by_cases hq : h._refCount = some q <;> simp [List.countP_cons, State.refersTo, hq]

theorem countRefs_set (l : List (Option shared_ptr)) (i : Nat) (h : shared_ptr)
    (x : Option shared_ptr) (q : Addr) (hi : slot l i = some h) :
    (l.set i x).countP (State.refersTo q) + (if h._refCount = some q then 1 else 0)
      = l.countP (State.refersTo q) + (if State.refersTo q x = true then 1 else 0) := by
  have h1 := countP_set_add (State.refersTo q) l i x (some h) (slot_eq_some.mp hi)
  have h2 : (State.refersTo q (some h)).toNat = if h._refCount = some q then 1 else 0 := by
    by_cases hq : h._refCount = some q <;> simp [State.refersTo, hq]
  have h3 : (State.refersTo q x).toNat = if State.refersTo q x = true then 1 else 0 := by
    cases State.refersTo q x <;> simp
  omega

theorem State.useCount_pos (s : State T) (i : Nat) (h : shared_ptr) (c : Addr)
    (hi : s.handle i = some h) (hc : h._refCount = some c) : 1 ≤ s.useCount c := by
  unfold State.useCount
  rw [Nat.succ_le_iff, List.countP_pos_iff]
  exact ⟨some h, List.getElem?_mem (slot_eq_some.mp hi), by simp [State.refersTo, hc]⟩

theorem State.useCount_zero (s : State T) (i : Nat) (h : shared_ptr) (c : Addr)
    (h0 : s.useCount c = 0) (hi : s.handle i = some h) : h._refCount ≠ some c := by
  intro hc
  have := s.useCount_pos i h c hi hc
  omega

theorem State.useCount_le_liveCount (s : State T) (c : Addr) :
    s.useCount c ≤ s.liveCount := by
  unfold State.useCount State.liveCount
  apply List.countP_mono_left
  intro x _ hx
  cases x with
  | none => simp [State.refersTo] at hx
  | some h => rfl

theorem CounterStep.cast {a b a1 b1 : Option Nat × Nat} (h : CounterStep a b)
    (ha : a = a1) (hb : b = b1) : CounterStep a1 b1 := by
  subst ha hb
  exact h

/-- What one operation does at each counter address. -/
theorem step_counterStep (s s1 : State T) (op : Op T) (hnn : CounterNonNull s)
    (hstep : step s op = some s1) (q : Addr) :
    CounterStep (s.counters q, s.useCount q) (s1.counters q, s1.useCount q) := by
  cases op with
  | ctor_default c =>
    obtain ⟨hfree, hs1⟩ := shared_ptr.ctor_default_inv hstep
    subst hs1
    by_cases hq : q = c
    · subst hq
      refine (CounterStep.alloc (s.useCount q)).cast (by rw [hfree]) ?_
      simp only [State.useCount, countRefs_append]
      simp [Store.write]
    · refine (CounterStep.same _ _).cast rfl ?_
      simp only [State.useCount, countRefs_append]
      simp [Store.write, hq, Ne.symm hq]
  | ctor_value value c v =>
    obtain ⟨hfree, _, hs1⟩ := shared_ptr.ctor_value_inv hstep
    subst hs1
    by_cases hq : q = c
    · subst hq
      refine (CounterStep.alloc (s.useCount q)).cast (by rw [hfree]) ?_
      simp only [State.useCount, countRefs_append]
      simp [Store.write]
    · refine (CounterStep.same _ _).cast rfl ?_
      simp only [State.useCount, countRefs_append]
      simp [Store.write, hq, Ne.symm hq]
  | ctor_copy other =>
    obtain ⟨o, ho, ⟨hc, _⟩ | ⟨c, n, hc, hn, hs1⟩⟩ := shared_ptr.ctor_copy_inv hstep
    · obtain ⟨c, hc1⟩ := hnn other o ho
      rw [hc] at hc1
      cases hc1
    · subst hs1
      by_cases hq : q = c
      · subst hq
        refine (CounterStep.inc n (s.useCount q)).cast (by rw [hn]) ?_
        simp only [State.useCount, countRefs_append]
        simp [Store.write, hc]
      · refine (CounterStep.same _ _).cast rfl ?_
        simp only [State.useCount, countRefs_append]
        simp [Store.write, hq, Ne.symm hq, hc]
  | dtor this =>
    obtain ⟨h0, c, n, hh, hc, hn, hcase⟩ := shared_ptr.dtor_inv hstep
    have hcount := countRefs_set s.handles this h0 none q hh
    simp only [State.refersTo, Bool.false_eq_true, if_false, add_zero, hc,
      Option.some.injEq] at hcount
    rcases hcase with ⟨hz, hs1⟩ | ⟨hz, values, _, hs1⟩
    · subst hs1
      by_cases hq : q = c
      · subst hq
        simp only [if_true] at hcount
        refine (CounterStep.dec n ((s.handles.set this none).countP (State.refersTo q))
          hz).cast ?_ ?_
        · rw [hn]
          simp [State.useCount, hcount]
        · simp [Store.write, State.useCount]
      · simp only [Ne.symm hq, if_false, add_zero] at hcount
        refine (CounterStep.same _ _).cast rfl ?_
        simp [Store.write, State.useCount, hq, hcount]
    · subst hs1
      by_cases hq : q = c
      · subst hq
        simp only [if_true] at hcount
        refine (CounterStep.decFree n ((s.handles.set this none).countP (State.refersTo q))
          hz).cast ?_ ?_
        · rw [hn]
          simp [State.useCount, hcount]
        · simp [Store.free, State.useCount]
      · simp only [Ne.symm hq, if_false, add_zero] at hcount
        refine (CounterStep.same _ _).cast rfl ?_
        simp [Store.free, State.useCount, hq, hcount]
  | assign this other =>
    obtain ⟨h0, o, hh, ho, ⟨_, hs1⟩ | ⟨hne, s0, hrel, hacq⟩⟩ := shared_ptr.assign_inv hstep
    · subst hs1
      exact CounterStep.same _ _
    · obtain ⟨c1, hc1⟩ := hnn this h0 hh
      obtain ⟨c2, hc2⟩ := hnn other o ho
      have hcount := countRefs_set s.handles this h0 (some o) q hh
      simp only [State.refersTo, hc1, hc2, Option.some.injEq, decide_eq_true_eq] at hcount
      rcases shared_ptr.release_inv hrel with ⟨hnone, _⟩ | ⟨c, n, hc, hn, hcase⟩
      · rw [hnone] at hc1
        cases hc1
      · rw [hc1] at hc
        cases hc
        rcases hcase with ⟨hz, hs0⟩ | ⟨hz, values, _, hs0⟩
        · subst hs0
          rcases shared_ptr.acquire_inv hacq with ⟨hnone, _⟩ | ⟨c, m, hc, hm, hs1⟩
          · rw [hnone] at hc2
            cases hc2
          · rw [hc2] at hc
            cases hc
            subst hs1
            simp only [Store.write] at hm
            by_cases hq1 : q = c1
            · subst hq1
              by_cases h21 : c2 = q
              · subst h21
                simp only [if_true, Option.some.injEq] at hm
                subst hm
                refine (CounterStep.decInc n (s.useCount c2) hz).cast (by rw [hn]) ?_
                simp only [if_true, Nat.add_right_cancel_iff] at hcount
                simp [Store.write, State.useCount, hcount]
              · simp only [h21, if_true, if_false, add_zero] at hcount
                refine (CounterStep.dec n
                  ((s.handles.set this (some o)).countP (State.refersTo q)) hz).cast ?_ ?_
                · rw [hn]
                  simp [State.useCount, hcount]
                · simp [Store.write, State.useCount, Ne.symm h21]
            · by_cases hq2 : q = c2
              · subst hq2
                simp only [hq1, if_false] at hm
                simp only [Ne.symm hq1, if_false, add_zero, if_true] at hcount
                refine (CounterStep.inc m (s.useCount q)).cast (by rw [hm]) ?_
                simp [Store.write, State.useCount, hcount]
              · simp only [Ne.symm hq1, Ne.symm hq2, if_false, add_zero] at hcount
                refine (CounterStep.same _ _).cast rfl ?_
                simp [Store.write, State.useCount, hq1, hq2, hcount]
        · subst hs0
          rcases shared_ptr.acquire_inv hacq with ⟨hnone, _⟩ | ⟨c, m, hc, hm, hs1⟩
          · rw [hnone] at hc2
            cases hc2
          · rw [hc2] at hc
            cases hc
            subst hs1
            simp only [Store.free] at hm
            have h21 : c2 ≠ c1 := by
              intro h21
              simp [h21] at hm
            simp only [h21, if_false] at hm
            by_cases hq1 : q = c1
            · subst hq1
              simp only [h21, if_true, if_false, add_zero] at hcount
              refine (CounterStep.decFree n
                ((s.handles.set this (some o)).countP (State.refersTo q)) hz).cast ?_ ?_
              · rw [hn]
                simp [State.useCount, hcount]
              · simp [Store.write, Store.free, State.useCount, Ne.symm h21]
            · by_cases hq2 : q = c2
              · subst hq2
                simp only [Ne.symm hq1, if_false, add_zero, if_true] at hcount
                refine (CounterStep.inc m (s.useCount q)).cast (by rw [hm]) ?_
                simp [Store.write, Store.free, State.useCount, hcount]
              · simp only [Ne.symm hq1, Ne.symm hq2, if_false, add_zero] at hcount
                refine (CounterStep.same _ _).cast rfl ?_
                simp [Store.write, Store.free, State.useCount, hq1, hq2, hcount]

theorem step_counterNonNull (s s1 : State T) (op : Op T) (hnn : CounterNonNull s)
    (hstep : step s op = some s1) : CounterNonNull s1 := by
  intro k h1 hk
  cases op with
  | ctor_default c =>
    obtain ⟨_, hs1⟩ := shared_ptr.ctor_default_inv hstep
    subst hs1
    rcases slot_append_singleton hk with ⟨_, hk1⟩ | ⟨_, hk1⟩
    · exact hnn k h1 hk1
    · cases hk1
      exact ⟨c, rfl⟩
  | ctor_value value c v =>
    obtain ⟨_, _, hs1⟩ := shared_ptr.ctor_value_inv hstep
    subst hs1
    rcases slot_append_singleton hk with ⟨_, hk1⟩ | ⟨_, hk1⟩
    · exact hnn k h1 hk1
    · cases hk1
      exact ⟨c, rfl⟩
  | ctor_copy other =>
    obtain ⟨o, ho, ⟨_, hs1⟩ | ⟨c, n, _, _, hs1⟩⟩ := shared_ptr.ctor_copy_inv hstep
    all_goals
      subst hs1
      rcases slot_append_singleton hk with ⟨_, hk1⟩ | ⟨_, hk1⟩
      · exact hnn k h1 hk1
      · cases hk1
        exact hnn other h1 ho
  | dtor this =>
    obtain ⟨h0, c, n, _, _, _, ⟨_, hs1⟩ | ⟨_, values, _, hs1⟩⟩ := shared_ptr.dtor_inv hstep
    all_goals
      subst hs1
      rcases slot_set hk with ⟨_, hk1⟩ | ⟨_, hk1⟩
      · cases hk1
      · exact hnn k h1 hk1
  | assign this other =>
    obtain ⟨h0, o, hh, ho, ⟨_, hs1⟩ | ⟨hne, s0, hrel, hacq⟩⟩ := shared_ptr.assign_inv hstep
    · subst hs1
      exact hnn k h1 hk
    · have hs0 : s0.handles = s.handles := by
        rcases shared_ptr.release_inv hrel with ⟨_, hs0⟩ | ⟨c, n, _, _, ⟨_, hs0⟩ | ⟨_, _, _, hs0⟩⟩
        all_goals
          subst hs0
          rfl
      have hs1 : s1.handles = s.handles.set this (some o) := by
        rcases shared_ptr.acquire_inv hacq with ⟨_, hs1⟩ | ⟨c, n, _, _, hs1⟩
        all_goals
          subst hs1
          rw [← hs0]
      unfold State.handle at hk
      rw [hs1] at hk
      rcases slot_set hk with ⟨_, hk1⟩ | ⟨_, hk1⟩
      · cases hk1
        exact hnn other h1 ho
      · exact hnn k h1 hk1

theorem State.empty_handle (i : Nat) : (State.empty : State T).handle i = none := by
  simp [State.handle, State.empty, slot]

theorem State.empty_useCount (c : Addr) : (State.empty : State T).useCount c = 0 := rfl

/-- Along every run, the handles keep a non-null `_refCount` and the counters agree with
the handles modulo `2 ^ 32`. -/
theorem run_counterInv (ops : List (Op T)) :
    ∀ s s1 : State T, CounterNonNull s → CounterInv s → run s ops = some s1 →
      CounterNonNull s1 ∧ CounterInv s1 := by
  induction ops with
  | nil =>
    intro s s1 hnn hci hrun
    simp only [run, Option.some.injEq] at hrun
    subst hrun
    exact ⟨hnn, hci⟩
  | cons op ops ih =>
    intro s s1 hnn hci hrun
    simp only [run] at hrun
    cases hst : step s op with
    | none => simp [hst] at hrun
    | some s2 =>
      simp only [hst] at hrun
      refine ih s2 s1 (step_counterNonNull s s2 op hnn hst) ?_ hrun
      intro c
      exact agrees_of_counterStep (hci c) (step_counterStep s s2 op hnn hst c)

theorem Reachable.counterInv {s : State T} (hr : Reachable s) :
    CounterNonNull s ∧ CounterInv s := by
  obtain ⟨ops, hrun⟩ := hr
  refine run_counterInv ops State.empty s ?_ ?_ hrun
  · intro i h hi
    rw [State.empty_handle] at hi
    cases hi
  · intro c
    show (0 : Nat) % UINT_MOD = 0
    rfl

theorem Store.write_write {α : Type} (m : Store α) (p : Addr) (x y : α) :
    (m.write p x).write p y = m.write p y := by
  funext q
  by_cases hq : q = p <;> simp [Store.write, hq]

theorem sharing_handle (x : T) (c v : Addr) (m i : Nat) (hi : i < m) :
    (sharing x c v m).handle i = some ⟨some c, some v⟩ := by
  show slot (List.replicate m _) i = _
  rw [slot_eq_some, List.getElem?_replicate, if_pos hi]

theorem sharing_useCount (x : T) (c v : Addr) (m : Nat) :
    (sharing x c v m).useCount c = m := by
  show (List.replicate m _).countP _ = m
  rw [List.countP_replicate]
  simp [State.refersTo]

theorem sharing_ctor_value (x : T) (c v : Addr) :
    shared_ptr.ctor_value State.empty x c v = some (sharing x c v 1) := rfl

theorem sharing_ctor_copy (x : T) (c v : Addr) (m j : Nat) (hj : j < m) :
    shared_ptr.ctor_copy (sharing x c v m) j = some (sharing x c v (m + 1)) := by
  unfold shared_ptr.ctor_copy
  rw [sharing_handle x c v m j hj]
  have hcnt : (sharing x c v m).counters c = some (m % UINT_MOD) := by
    simp [sharing, Store.write]
  simp only [hcnt]
  have hmod : uint_inc (m % UINT_MOD) = (m + 1) % UINT_MOD := by
    simp only [uint_inc, UINT_MOD]
    omega
  rw [hmod]
  simp only [sharing, Store.write_write, List.replicate_succ']

theorem sharing_run_copies (x : T) (c v : Addr) (srcs : List Nat) :
    ∀ m, sourcesBelow m srcs →
      run (sharing x c v m) (srcs.map Op.ctor_copy) = some (sharing x c v (m + srcs.length)) := by
  induction srcs with
  | nil =>
    intro m _
    rfl
  | cons j js ih =>
    intro m hm
    obtain ⟨hj, hjs⟩ := hm
    simp only [List.map_cons, run, step, sharing_ctor_copy x c v m j hj, List.length_cons]
    rw [ih (m + 1) hjs]
    congr 2
    omega

theorem sourcesBelow_replicate (k : Nat) : ∀ m, 0 < m → sourcesBelow m (List.replicate k 0) := by
  induction k with
  | zero =>
    intro m _
    trivial
  | succ k ih =>
    intro m hm
    exact ⟨hm, ih (m + 1) (Nat.succ_pos m)⟩

theorem run_sharing (x : T) (c v : Addr) (srcs : List Nat) (h : sourcesBelow 1 srcs) :
    run State.empty (Op.ctor_value x c v :: srcs.map Op.ctor_copy)
      = some (sharing x c v (srcs.length + 1)) := by
  simp only [run, step, sharing_ctor_value]
  rw [sharing_run_copies x c v srcs 1 h, Nat.add_comm]

theorem UINT_MOD_pred_succ : UINT_MOD - 1 + 1 = UINT_MOD := by
  unfold UINT_MOD
  norm_num

/-- After one value-wrapping construction and `2 ^ 32 - 1` copy constructions the counter
holds 0 and `2 ^ 32` handles refer to it. -/
theorem sharing_wraps (x : Lib.Dev.Test_Object) :
    ∃ s, run State.empty
        (Op.ctor_value x 0 0 :: (List.replicate (UINT_MOD - 1) 0).map Op.ctor_copy) = some s ∧
      s.counters 0 = some 0 ∧ s.useCount 0 = UINT_MOD := by
  have h := run_sharing x 0 0 (List.replicate (UINT_MOD - 1) 0)
    (sourcesBelow_replicate _ 1 Nat.one_pos)
  rw [List.length_replicate, UINT_MOD_pred_succ] at h
  refine ⟨sharing x 0 0 UINT_MOD, h, ?_, sharing_useCount x 0 0 UINT_MOD⟩
  show (if (0 : Nat) = 0 then some (UINT_MOD % UINT_MOD) else none) = some 0
  rw [if_pos rfl, Nat.mod_self]

theorem State.mem_of_handle {s : State T} {i : Nat} {h : shared_ptr}
    (hi : s.handle i = some h) : some h ∈ s.handles :=
  List.getElem?_mem (slot_eq_some.mp hi)

theorem State.useCount_pos_of_mem (s : State T) (h : shared_ptr) (c : Addr)
    (hm : some h ∈ s.handles) (hc : h._refCount = some c) : 1 ≤ s.useCount c := by
  unfold State.useCount
  rw [Nat.succ_le_iff, List.countP_pos_iff]
  exact ⟨some h, hm, by simp [State.refersTo, hc]⟩

theorem Overflowed.le_liveCount {s : State T} (h : Overflowed s) : UINT_MOD ≤ s.liveCount := by
  obtain ⟨c, F, hF, hmod, hfl⟩ := h
  have h1 := s.useCount_le_liveCount c
  have h2 : F ≤ s.useCount c := by
    cases hc : s.counters c with
    | none =>
      rw [hc] at hfl
      exact hfl
    | some n =>
      rw [hc] at hfl
      exact Nat.le_of_lt hfl
  have h3 : UINT_MOD ≤ F := Nat.le_of_dvd hF (Nat.dvd_of_mod_eq_zero hmod)
  omega

theorem step_overflowed (s s1 : State T) (op : Op T) (hnn : CounterNonNull s)
    (hci : CounterInv s) (hov : Overflowed s) (hstep : step s op = some s1) :
    Overflowed s1 := by
  obtain ⟨c, F, hF, hmod, hfl⟩ := hov
  exact ⟨c, F, hF, hmod,
    aboveFloor_of_counterStep hmod (hci c) hfl (step_counterStep s s1 op hnn hstep c)⟩

/-- Releasing the last counted reference of a counter that other handles still refer to
leaves an overflowed state. -/
theorem overflowed_of_free (s1 : State T) (c : Addr) (hag : Agrees (none, s1.useCount c))
    (hc : s1.counters c = none) (hk : 1 ≤ s1.useCount c) : Overflowed s1 := by
  refine ⟨c, s1.useCount c, hk, hag, ?_⟩
  rw [hc]
  exact Nat.le_refl _

theorem Store.write_live {α : Type} (m : Store α) (p q : Addr) (x : α)
    (h : ∃ y, m q = some y) : ∃ y, (m.write p x) q = some y := by
  by_cases hq : q = p
  · exact ⟨x, by simp [Store.write, hq]⟩
  · obtain ⟨y, hy⟩ := h
    exact ⟨y, by simp [Store.write, hq, hy]⟩

theorem Store.free_live {α : Type} (m : Store α) (p q : Addr) (hq : q ≠ p)
    (h : ∃ y, m q = some y) : ∃ y, (m.free p) q = some y := by
  obtain ⟨y, hy⟩ := h
  exact ⟨y, by simp [Store.free, hq, hy]⟩

theorem Store.delete_live {α : Type} {m m1 : Store α} {p : Option Addr} (q : Addr)
    (hd : Store.delete m p = some m1) (hq : p ≠ some q) (h : ∃ y, m q = some y) :
    ∃ y, m1 q = some y := by
  rcases Store.delete_some hd with ⟨_, hm⟩ | ⟨a, x, hpa, _, hm⟩
  · subst hm
    exact h
  · subst hm
    refine Store.free_live m a q ?_ h
    intro hqa
    subst hqa
    exact hq hpa

theorem mem_append_handle {l : List (Option shared_ptr)} {h h1 : shared_ptr}
    (hm : some h ∈ l ++ [some h1]) : some h ∈ l ∨ h = h1 := by
  rw [List.mem_append, List.mem_singleton] at hm
  rcases hm with hm | hm
  · exact Or.inl hm
  · cases hm
    exact Or.inr rfl

theorem mem_set_none {l : List (Option shared_ptr)} {h : shared_ptr} {i : Nat}
    (hm : some h ∈ l.set i none) : some h ∈ l := by
  rcases List.mem_or_eq_of_mem_set hm with hm | hm
  · exact hm
  · cases hm

theorem mem_set_handle {l : List (Option shared_ptr)} {h h1 : shared_ptr} {i : Nat}
    (hm : some h ∈ l.set i (some h1)) : some h ∈ l ∨ h = h1 := by
  rcases List.mem_or_eq_of_mem_set hm with hm | hm
  · exact Or.inl hm
  · cases hm
    exact Or.inr rfl

/-- A state that fits together still does after an operation that adds a handle sharing
with an existing one, or changes nothing but counters that stay live. -/
theorem Clean.of_subset (s s1 : State T) (hcl : Clean s)
    (hh : ∀ h, some h ∈ s1.handles → some h ∈ s.handles)
    (hc : ∀ q, (∃ n, s.counters q = some n) → ∃ n, s1.counters q = some n)
    (hv : s1.values = s.values) : Clean s1 where
  counterLive := fun h c hm hcc => hc c (hcl.counterLive h c (hh h hm) hcc)
  rawGroup := fun h1 h2 v hm1 hm2 => hcl.rawGroup h1 h2 v (hh h1 hm1) (hh h2 hm2)
  rawLive := fun h v hm hr => by
    rw [hv]
    exact hcl.rawLive h v (hh h hm) hr

/-- A state that fits together still does after the last handle of a group has released
the group's counter and payload. -/
theorem Clean.of_release (s s1 : State T) (hcl : Clean s) (h0 : shared_ptr) (c : Addr)
    (hm0 : some h0 ∈ s.handles) (hc0 : h0._refCount = some c)
    (hh : ∀ h, some h ∈ s1.handles → some h ∈ s.handles)
    (hzero : s1.useCount c = 0)
    (hc : ∀ q, q ≠ c → (∃ n, s.counters q = some n) → ∃ n, s1.counters q = some n)
    (hv : Store.delete s.values h0._raw = some s1.values) : Clean s1 where
  counterLive := by
    intro h q hm hq
    refine hc q ?_ (hcl.counterLive h q (hh h hm) hq)
    intro hqc
    subst hqc
    have := s1.useCount_pos_of_mem h q hm hq
    omega
  rawGroup := fun h1 h2 v hm1 hm2 => hcl.rawGroup h1 h2 v (hh h1 hm1) (hh h2 hm2)
  rawLive := by
    intro h v hm hr
    refine Store.delete_live v hv ?_ (hcl.rawLive h v (hh h hm) hr)
    intro h0r
    have hsame := hcl.rawGroup h h0 v (hh h hm) hm0 hr h0r
    rw [hc0] at hsame
    have := s1.useCount_pos_of_mem h c hm hsame
    omega

/-- An operation on a state that fits together gives a state that fits together, unless it
releases the last counted reference of a counter other handles still refer to. -/
theorem step_clean (s s1 : State T) (op : Op T) (hnn : CounterNonNull s)
    (hci : CounterInv s) (hcl : Clean s) (hstep : step s op = some s1) :
    Clean s1 ∨ Overflowed s1 := by
  have hag : ∀ c, Agrees (s1.counters c, s1.useCount c) :=
    fun c => agrees_of_counterStep (hci c) (step_counterStep s s1 op hnn hstep c)
  cases op with
  | ctor_default c =>
    obtain ⟨hfree, hs1⟩ := shared_ptr.ctor_default_inv hstep
    subst hs1
    left
    refine ⟨?_, ?_, ?_⟩
    · intro h q hm hq
      rcases mem_append_handle hm with hm | hm
      · exact Store.write_live _ _ _ _ (hcl.counterLive h q hm hq)
      · subst hm
        cases hq
        exact ⟨1, by simp [Store.write]⟩
    · intro h1 h2 v hm1 hm2 hr1 hr2
      rcases mem_append_handle hm1 with hm1 | hm1
      · rcases mem_append_handle hm2 with hm2 | hm2
        · exact hcl.rawGroup h1 h2 v hm1 hm2 hr1 hr2
        · subst hm2
          cases hr2
      · subst hm1
        cases hr1
    · intro h v hm hr
      rcases mem_append_handle hm with hm | hm
      · exact hcl.rawLive h v hm hr
      · subst hm
        cases hr
  | ctor_value value c v0 =>
    obtain ⟨hfree, hvfree, hs1⟩ := shared_ptr.ctor_value_inv hstep
    subst hs1
    left
    have hold : ∀ h, some h ∈ s.handles → h._raw ≠ some v0 := by
      intro h hm hr
      obtain ⟨x, hx⟩ := hcl.rawLive h v0 hm hr
      rw [hvfree] at hx
      cases hx
    refine ⟨?_, ?_, ?_⟩
    · intro h q hm hq
      rcases mem_append_handle hm with hm | hm
      · exact Store.write_live _ _ _ _ (hcl.counterLive h q hm hq)
      · subst hm
        cases hq
        exact ⟨1, by simp [Store.write]⟩
    · intro h1 h2 v hm1 hm2 hr1 hr2
      rcases mem_append_handle hm1 with hm1 | hm1
      · rcases mem_append_handle hm2 with hm2 | hm2
        · exact hcl.rawGroup h1 h2 v hm1 hm2 hr1 hr2
        · subst hm2
          cases hr2
          exact absurd hr1 (hold h1 hm1)
      · rcases mem_append_handle hm2 with hm2 | hm2
        · subst hm1
          cases hr1
          exact absurd hr2 (hold h2 hm2)
        · rw [hm1, hm2]
    · intro h v hm hr
      rcases mem_append_handle hm with hm | hm
      · exact Store.write_live _ _ _ _ (hcl.rawLive h v hm hr)
      · subst hm
        cases hr
        exact ⟨value, by simp [Store.write]⟩
  | ctor_copy other =>
    obtain ⟨o, ho, hcase⟩ := shared_ptr.ctor_copy_inv hstep
    left
    have hsub : ∀ h, some h ∈ s.handles ++ [some o] → some h ∈ s.handles := by
      intro h hm
      rcases mem_append_handle hm with hm | hm
      · exact hm
      · subst hm
        exact State.mem_of_handle ho
    rcases hcase with ⟨_, hs1⟩ | ⟨c, n, _, _, hs1⟩
    · subst hs1
      exact Clean.of_subset s _ hcl hsub (fun q hq => hq) rfl
    · subst hs1
      exact Clean.of_subset s _ hcl hsub (fun q hq => Store.write_live _ _ _ _ hq) rfl
  | dtor this =>
    obtain ⟨h0, c, n, hh, hc, hn, hcase⟩ := shared_ptr.dtor_inv hstep
    rcases hcase with ⟨hz, hs1⟩ | ⟨hz, values, hdel, hs1⟩
    · subst hs1
      left
      exact Clean.of_subset s _ hcl (fun h hm => mem_set_none hm)
        (fun q hq => Store.write_live _ _ _ _ hq) rfl
    · subst hs1
      have hnone : (s.counters.free c) c = none := by simp [Store.free]
      by_cases hcount : (State.useCount
          (⟨s.counters.free c, values, s.handles.set this none⟩ : State T) c) = 0
      · left
        exact Clean.of_release s _ hcl h0 c (State.mem_of_handle hh) hc
          (fun h hm => mem_set_none hm) hcount
          (fun q hq hl => Store.free_live _ _ _ hq hl) hdel
      · right
        have h1 := hag c
        simp only [hnone] at h1
        exact overflowed_of_free _ c h1 hnone (Nat.one_le_iff_ne_zero.mpr hcount)
  | assign this other =>
    obtain ⟨h0, o, hh, ho, ⟨_, hs1⟩ | ⟨hne, s0, hrel, hacq⟩⟩ := shared_ptr.assign_inv hstep
    · subst hs1
      exact Or.inl hcl
    · obtain ⟨c1, hc1⟩ := hnn this h0 hh
      obtain ⟨c2, hc2⟩ := hnn other o ho
      have hsub : ∀ h, some h ∈ s.handles.set this (some o) → some h ∈ s.handles := by
        intro h hm
        rcases mem_set_handle hm with hm | hm
        · exact hm
        · subst hm
          exact State.mem_of_handle ho
      rcases shared_ptr.release_inv hrel with ⟨hnone, _⟩ | ⟨c, n, hc, hn, hcase⟩
      · rw [hnone] at hc1
        cases hc1
      · rw [hc1] at hc
        cases hc
        rcases hcase with ⟨hz, hs0⟩ | ⟨hz, values, hdel, hs0⟩
        · subst hs0
          rcases shared_ptr.acquire_inv hacq with ⟨hnone, _⟩ | ⟨c, m, hc, hm, hs1⟩
          · rw [hnone] at hc2
            cases hc2
          · subst hs1
            left
            exact Clean.of_subset s _ hcl hsub
              (fun q hq => Store.write_live _ _ _ _ (Store.write_live _ _ _ _ hq)) rfl
        · subst hs0
          rcases shared_ptr.acquire_inv hacq with ⟨hnone, _⟩ | ⟨c, m, hc, hm, hs1⟩
          · rw [hnone] at hc2
            cases hc2
          · subst hs1
            have hcc : c ≠ c1 := by
              intro hcc
              simp [Store.free, hcc] at hm
            have hnone : ((s.counters.free c1).write c (uint_inc m)) c1 = none := by
              simp [Store.free, Store.write, Ne.symm hcc]
            by_cases hcount : (State.useCount
                (⟨(s.counters.free c1).write c (uint_inc m), values,
                  s.handles.set this (some o)⟩ : State T) c1) = 0
            · left
              exact Clean.of_release s _ hcl h0 c1 (State.mem_of_handle hh) hc1 hsub hcount
                (fun q hq hl => Store.write_live _ _ _ _ (Store.free_live _ _ _ hq hl)) hdel
            · right
              have h1 := hag c1
              simp only [hnone] at h1
              exact overflowed_of_free _ c1 h1 hnone (Nat.one_le_iff_ne_zero.mpr hcount)

/-- Along every run the counters agree with the handles modulo `2 ^ 32`, and the state
fits together unless a counter has overflowed. -/
theorem run_invariant (ops : List (Op T)) :
    ∀ s s1 : State T, CounterNonNull s → CounterInv s → Clean s ∨ Overflowed s →
      run s ops = some s1 →
      CounterNonNull s1 ∧ CounterInv s1 ∧ (Clean s1 ∨ Overflowed s1) := by
  induction ops with
  | nil =>
    intro s s1 hnn hci hco hrun
    simp only [run, Option.some.injEq] at hrun
    subst hrun
    exact ⟨hnn, hci, hco⟩
  | cons op ops ih =>
    intro s s1 hnn hci hco hrun
    simp only [run] at hrun
    cases hst : step s op with
    | none => simp [hst] at hrun
    | some s2 =>
      simp only [hst] at hrun
      refine ih s2 s1 (step_counterNonNull s s2 op hnn hst) ?_ ?_ hrun
      · intro c
        exact agrees_of_counterStep (hci c) (step_counterStep s s2 op hnn hst c)
      · rcases hco with hcl | hov
        · exact step_clean s s2 op hnn hci hcl hst
        · exact Or.inr (step_overflowed s s2 op hnn hci hov hst)

/-- A reachable state with fewer than `2 ^ 32` live handles fits together, and its counters
hold exactly the numbers of handles referring to them. -/
theorem Reachable.clean {s : State T} (hr : Reachable s) (hlt : s.liveCount < UINT_MOD) :
    CounterNonNull s ∧ Clean s ∧
      ∀ c n, s.counters c = some n → n = s.useCount c ∧ 1 ≤ n := by
  obtain ⟨ops, hrun⟩ := hr
  have h0n : CounterNonNull (State.empty : State T) := by
    intro i h hi
    rw [State.empty_handle] at hi
    cases hi
  have h0c : CounterInv (State.empty : State T) := by
    intro c
    show (0 : Nat) % UINT_MOD = 0
    rfl
  have h0k : Clean (State.empty : State T) := by
    refine ⟨?_, ?_, ?_⟩ <;> intro h <;> intros <;> simp [State.empty] at *
  obtain ⟨hnn, hci, hco⟩ := run_invariant ops State.empty s h0n h0c (Or.inl h0k) hrun
  refine ⟨hnn, ?_, ?_⟩
  · rcases hco with hcl | hov
    · exact hcl
    · have := hov.le_liveCount
      omega
  · intro c n hc
    have hag := hci c
    rw [hc] at hag
    simp only [Agrees] at hag
    have hle := s.useCount_le_liveCount c
    rw [Nat.mod_eq_of_lt (by omega)] at hag
    omega

/-! ## What each `shared_ptr` operation computes -/

theorem Store.delete_write_self (m : Store Nat) (c : Addr) (x : Nat) :
    Store.delete (m.write c x) (some c) = some (m.free c) := by
  simp [Store.delete, Store.write, Store.free_write]

theorem shared_ptr.ctor_copy_eq (s : State T) (j : Nat) (h : shared_ptr) (c : Addr) (n : Nat)
    (hj : s.handle j = some h) (hc : h._refCount = some c) (hn : s.counters c = some n) :
    shared_ptr.ctor_copy s j
      = some ⟨s.counters.write c (uint_inc n), s.values, s.handles ++ [some h]⟩ := by
  simp only [shared_ptr.ctor_copy, hj, hc, hn]
  rw [← hc]

theorem shared_ptr.dtor_keep (s : State T) (i : Nat) (h : shared_ptr) (c : Addr) (n : Nat)
    (hi : s.handle i = some h) (hc : h._refCount = some c) (hn : s.counters c = some n)
    (hz : uint_dec n ≠ 0) :
    shared_ptr.dtor s i
      = some ⟨s.counters.write c (uint_dec n), s.values, s.handles.set i none⟩ := by
  simp only [shared_ptr.dtor, hi, hc, hn, hz, if_false]

theorem shared_ptr.dtor_free (s : State T) (i : Nat) (h : shared_ptr) (c : Addr) (n : Nat)
    (values : Store T)
    (hi : s.handle i = some h) (hc : h._refCount = some c) (hn : s.counters c = some n)
    (hz : uint_dec n = 0) (hd : Store.delete s.values h._raw = some values) :
    shared_ptr.dtor s i = some ⟨s.counters.free c, values, s.handles.set i none⟩ := by
  simp only [shared_ptr.dtor, hi, hc, hn, hz, if_true, Store.delete_write_self, hd]

theorem shared_ptr.release_keep (s : State T) (h : shared_ptr) (c : Addr) (n : Nat)
    (hc : h._refCount = some c) (hn : s.counters c = some n) (hz : uint_dec n ≠ 0) :
    shared_ptr.release s h = some ⟨s.counters.write c (uint_dec n), s.values, s.handles⟩ := by
  simp only [shared_ptr.release, hc, hn, hz, if_false]

theorem shared_ptr.release_free (s : State T) (h : shared_ptr) (c : Addr) (n : Nat)
    (values : Store T) (hc : h._refCount = some c) (hn : s.counters c = some n)
    (hz : uint_dec n = 0) (hd : Store.delete s.values h._raw = some values) :
    shared_ptr.release s h = some ⟨s.counters.free c, values, s.handles⟩ := by
  simp only [shared_ptr.release, hc, hn, hz, if_true, Store.delete_write_self, hd]

theorem shared_ptr.acquire_eq (s : State T) (this : Nat) (o : shared_ptr) (c : Addr) (n : Nat)
    (hc : o._refCount = some c) (hn : s.counters c = some n) :
    shared_ptr.acquire s this o
      = some ⟨s.counters.write c (uint_inc n), s.values, s.handles.set this (some o)⟩ := by
  simp only [shared_ptr.acquire, hc, hn]
  rw [← hc]

theorem shared_ptr.assign_eq (s s0 : State T) (this other : Nat) (h o : shared_ptr)
    (hi : s.handle this = some h) (ho : s.handle other = some o) (hne : this ≠ other)
    (hr : shared_ptr.release s h = some s0) :
    shared_ptr.assign s this other = shared_ptr.acquire s0 this o := by
  simp only [shared_ptr.assign, hi, ho, hne, ne_eq, not_false_eq_true, if_true, hr]

theorem Store.delete_live_eq {α : Type} (m : Store α) (v : Addr) (x : α) (hv : m v = some x) :
    Store.delete m (some v) = some (m.free v) := by
  simp [Store.delete, hv]

theorem uint_dec_of_pos (n : Nat) (h1 : 1 ≤ n) (h2 : n < UINT_MOD) : uint_dec n = n - 1 := by
  simp only [uint_dec, UINT_MOD] at *
  omega

theorem uint_inc_of_lt (n : Nat) (h : n + 1 < UINT_MOD) : uint_inc n = n + 1 := by
  simp only [uint_inc, UINT_MOD] at *
  omega

/-- Destroying, one after another, distinct live handles of a state in which every live
handle shares one payload and one counter holding the number of handles. -/
theorem run_dtors_sharing (x : T) (c v : Addr) :
    ∀ (ds : List Nat) (s : State T) (m : Nat), 1 ≤ m → m < UINT_MOD →
      (∀ i h, s.handle i = some h → h = ⟨some c, some v⟩) →
      s.useCount c = m → s.counters c = some m → s.values v = some x →
      ds.Nodup → (∀ d ∈ ds, ∃ h, s.handle d = some h) → ds.length ≤ m →
      ∃ s1, run s (ds.map Op.dtor) = some s1 ∧
        if ds.length < m then s1.counters c = some (m - ds.length) ∧ s1.values v = some x
        else s1.counters c = none ∧ s1.values v = none := by
  intro ds
  induction ds with
  | nil =>
    intro s m h1 _ _ _ hcnt hval _ _ _
    refine ⟨s, rfl, ?_⟩
    rw [if_pos (by simpa using h1)]
    exact ⟨by simpa using hcnt, hval⟩
  | cons d rest ih =>
    intro s m h1 hlt hall huse hcnt hval hnd hlive hlen
    obtain ⟨h, hd⟩ := hlive d (List.mem_cons_self d rest)
    have hh := hall d h hd
    have hrc : h._refCount = some c := by rw [hh]
    have hraw : h._raw = some v := by rw [hh]
    have hdec := uint_dec_of_pos m h1 hlt
    simp only [List.length_cons] at hlen
    by_cases hm1 : m = 1
    · subst hm1
      have hrest : rest = [] := List.length_eq_zero.mp (by omega)
      subst hrest
      have hstep := shared_ptr.dtor_free s d h c 1 (s.values.free v) hd hrc hcnt
        (by rw [hdec]) (by rw [hraw]; exact Store.delete_live_eq _ _ _ hval)
      refine ⟨⟨s.counters.free c, s.values.free v, s.handles.set d none⟩,
        by simp only [List.map_cons, List.map_nil, run, step, hstep], ?_⟩
      rw [if_neg (by simp)]
      exact ⟨by simp [Store.free], by simp [Store.free]⟩
    · have hstep := shared_ptr.dtor_keep s d h c m hd hrc hcnt (by rw [hdec]; omega)
      have hcount := countRefs_set s.handles d h none c hd
      simp only [State.refersTo, hrc, if_true, Bool.false_eq_true, if_false,
        add_zero] at hcount
      obtain ⟨s1, hrun, hres⟩ := ih
        ⟨s.counters.write c (uint_dec m), s.values, s.handles.set d none⟩ (m - 1)
        (by omega) (by omega)
        (by
          intro i h1 hi
          rcases slot_set hi with ⟨_, hi1⟩ | ⟨_, hi1⟩
          · cases hi1
          · exact hall i h1 hi1)
        (by
          show (s.handles.set d none).countP (State.refersTo c) = m - 1
          have : s.handles.countP (State.refersTo c) = m := huse
          omega)
        (by simp [Store.write, hdec])
        hval
        (List.nodup_cons.mp hnd).2
        (by
          intro d1 hd1
          obtain ⟨h1, hh1⟩ := hlive d1 (List.mem_cons_of_mem d hd1)
          refine ⟨h1, ?_⟩
          have hne : d ≠ d1 := by
            intro he
            subst he
            exact (List.nodup_cons.mp hnd).1 hd1
          show slot _ _ = _
          rw [slot_set_ne _ _ hne]
          exact hh1)
        (by omega)
      refine ⟨s1, by simp only [List.map_cons, run, step, hstep, hrun], ?_⟩
      simp only [List.length_cons]
      by_cases hl : rest.length < m - 1
      · rw [if_pos hl] at hres
        rw [if_pos (by omega)]
        refine ⟨?_, hres.2⟩
        rw [hres.1, Nat.sub_sub, Nat.add_comm 1 rest.length]
      · rw [if_neg hl] at hres
        rw [if_neg (by omega)]
        exact hres

theorem sharing_counters (x : T) (c v : Addr) (m : Nat) :
    (sharing x c v m).counters c = some (m % UINT_MOD) := by
  simp [sharing, Store.write]

theorem sharing_values (x : T) (c v : Addr) (m : Nat) :
    (sharing x c v m).values v = some x := by
  simp [sharing, Store.write]

theorem sharing_handle_inv (x : T) (c v : Addr) (m i : Nat) (h : shared_ptr)
    (hi : (sharing x c v m).handle i = some h) : h = ⟨some c, some v⟩ := by
  have hlt : i < m := by
    have := slot_lt hi
    simpa [sharing] using this
  rw [sharing_handle x c v m i hlt] at hi
  cases hi
  rfl

/-- After one value-wrapping construction and `2 ^ 32 - 1` copy constructions the counter
holds 0, and destroying one of the `2 ^ 32` handles takes it to `2 ^ 32 - 1`. -/
theorem sharing_wraps_dtor (x : Test_Object) :
    ∃ s s1, run State.empty
        (Op.ctor_value x 0 0 :: (List.replicate (UINT_MOD - 1) 0).map Op.ctor_copy) = some s ∧
      s.liveCount = UINT_MOD ∧ s.counters 0 = some 0 ∧
      shared_ptr.dtor s 0 = some s1 ∧ s1.counters 0 = some (UINT_MOD - 1) := by
  have h := run_sharing x 0 0 (List.replicate (UINT_MOD - 1) 0)
    (sourcesBelow_replicate _ 1 Nat.one_pos)
  rw [List.length_replicate, UINT_MOD_pred_succ] at h
  have hcnt : (sharing x 0 0 UINT_MOD).counters 0 = some 0 := by
    rw [sharing_counters, Nat.mod_self]
  have hpos : 0 < UINT_MOD := by
    unfold UINT_MOD
    norm_num
  have hdec : uint_dec 0 = UINT_MOD - 1 := by
    unfold uint_dec UINT_MOD
    norm_num
  have hne : uint_dec 0 ≠ 0 := by
    unfold uint_dec UINT_MOD
    norm_num
  refine ⟨sharing x 0 0 UINT_MOD, _, h, ?_, hcnt,
    shared_ptr.dtor_keep _ 0 _ 0 0 (sharing_handle x 0 0 UINT_MOD 0 hpos) rfl hcnt hne, ?_⟩
  · show (List.replicate _ _).countP _ = _
    rw [List.countP_replicate]
    simp
  · simp [Store.write, hdec]

theorem Store.delete_none_at {α : Type} {m m1 : Store α} {v : Addr}
    (hd : Store.delete m (some v) = some m1) : m1 v = none := by
  rcases Store.delete_some hd with ⟨hp, _⟩ | ⟨a, x, hpa, _, hm⟩
  · cases hp
  · cases hpa
    subst hm
    simp [Store.free]

theorem Store.delete_defined {α : Type} (m : Store α) (p : Option Addr)
    (h : ∀ v, p = some v → ∃ x, m v = some x) : ∃ m1, Store.delete m p = some m1 := by
  cases p with
  | none => exact ⟨m, rfl⟩
  | some v =>
    obtain ⟨x, hx⟩ := h v rfl
    exact ⟨_, Store.delete_live_eq m v x hx⟩

theorem uint_dec_eq_zero (n : Nat) (hn : n < UINT_MOD) : uint_dec n = 0 ↔ n = 1 := by
  simp only [uint_dec, UINT_MOD] at *
  omega

/-- No other live handle refers to a counter that only one live handle refers to. -/
theorem State.useCount_one (s : State T) (i j : Nat) (hi hj : shared_ptr) (c : Addr)
    (h1 : s.useCount c = 1) (hli : s.handle i = some hi) (hci : hi._refCount = some c)
    (hne : j ≠ i) (hlj : s.handle j = some hj) : hj._refCount ≠ some c := by
  intro hcj
  have hcount := countRefs_set s.handles i hi none c hli
  simp only [State.refersTo, hci, if_true, Bool.false_eq_true, if_false, add_zero] at hcount
  have h1' : s.handles.countP (State.refersTo c) = 1 := h1
  have hpos := State.useCount_pos (⟨s.counters, s.values, s.handles.set i none⟩ : State T)
    j hj c (by
      show slot _ _ = _
      rw [slot_set_ne _ _ (Ne.symm hne)]
      exact hlj) hcj
  have : (s.handles.set i none).countP (State.refersTo c) ≥ 1 := hpos
  omega

/-- After one value-wrapping construction and `2 ^ 32` copy constructions the counter reads
1, and destroying one handle deallocates counter and payload under the other handles. -/
theorem sharing_wraps_release (x : Test_Object) :
    ∃ s s1, run State.empty
        (Op.ctor_value x 0 0 :: (List.replicate UINT_MOD 0).map Op.ctor_copy) = some s ∧
      s.counters 0 = some 1 ∧
      shared_ptr.dtor s 0 = some s1 ∧ s1.counters 0 = none ∧ s1.values 0 = none ∧
      s1.handle 1 = some ⟨some 0, some 0⟩ := by
  have h := run_sharing x 0 0 (List.replicate UINT_MOD 0)
    (sourcesBelow_replicate _ 1 Nat.one_pos)
  rw [List.length_replicate] at h
  have hmod : (UINT_MOD + 1) % UINT_MOD = 1 := by
    unfold UINT_MOD
    norm_num
  have hcnt : (sharing x 0 0 (UINT_MOD + 1)).counters 0 = some 1 := by
    rw [sharing_counters, hmod]
  have hz : uint_dec 1 = 0 := by
    unfold uint_dec UINT_MOD
    norm_num
  have hstep := shared_ptr.dtor_free (sharing x 0 0 (UINT_MOD + 1)) 0 ⟨some 0, some 0⟩ 0 1
    ((sharing x 0 0 (UINT_MOD + 1)).values.free 0)
    (sharing_handle x 0 0 _ 0 (Nat.succ_pos _)) rfl hcnt hz
    (Store.delete_live_eq _ 0 x (sharing_values x 0 0 _))
  refine ⟨sharing x 0 0 (UINT_MOD + 1), _, h, hcnt, hstep, ?_, ?_, ?_⟩
  · simp [Store.free]
  · simp [Store.free]
  · show slot _ _ = _
    rw [slot_set_ne _ _ (by decide)]
    exact sharing_handle x 0 0 _ 1 (by unfold UINT_MOD; norm_num)

theorem countRefs_add_le (c1 c2 : Addr) (hne : c1 ≠ c2) (l : List (Option shared_ptr)) :
    l.countP (State.refersTo c1) + l.countP (State.refersTo c2) ≤ l.countP Option.isSome := by
  induction l with
  | nil => simp
  | cons a l ih =>
    simp only [List.countP_cons]
    cases a with
    | none =>
      simp [State.refersTo]
      exact ih
    | some h =>
      by_cases h1 : h._refCount = some c1
      · simp [State.refersTo, h1, hne]
        omega
      · by_cases h2 : h._refCount = some c2
        · simp [State.refersTo, h2, Ne.symm hne]
          omega
        · simp [State.refersTo, h1, h2]
          omega

theorem shared_ptr.release_frame {s s0 : State T} {h : shared_ptr}
    (hr : shared_ptr.release s h = some s0) :
    s0.handles = s.handles ∧ ∀ q, h._refCount ≠ some q → s0.counters q = s.counters q := by
  rcases shared_ptr.release_inv hr with ⟨_, hs0⟩ | ⟨c, n, hc, _, ⟨_, hs0⟩ | ⟨_, _, _, hs0⟩⟩
  · subst hs0
    exact ⟨rfl, fun _ _ => rfl⟩
  · subst hs0
    refine ⟨rfl, fun q hq => ?_⟩
    have : q ≠ c := fun he => hq (he ▸ hc)
    simp [Store.write, this]
  · subst hs0
    refine ⟨rfl, fun q hq => ?_⟩
    have : q ≠ c := fun he => hq (he ▸ hc)
    simp [Store.free, this]

theorem run_append (l1 l2 : List (Op T)) :
    ∀ s s1 : State T, run s l1 = some s1 → run s (l1 ++ l2) = run s1 l2 := by
  induction l1 with
  | nil =>
    intro s s1 h
    simp only [run, Option.some.injEq] at h
    subst h
    rfl
  | cons op ops ih =>
    intro s s1 h
    simp only [run, List.cons_append] at h ⊢
    cases hst : step s op with
    | none => simp [hst] at h
    | some s2 =>
      simp only [hst] at h ⊢
      exact ih s2 s1 h

theorem shared_ptr.ctor_value_eq (s : State T) (value : T) (c v : Addr)
    (hc : s.counters c = none) (hv : s.values v = none) :
    shared_ptr.ctor_value s value c v
      = some ⟨s.counters.write c 1, s.values.write v value,
          s.handles ++ [some ⟨some c, some v⟩]⟩ := by
  simp only [shared_ptr.ctor_value, Store.alloc, hc, hv]

/-- Copy assignment from a group of `2 ^ 32 - 1` handles takes the group's counter to 0. -/
theorem sharing_wraps_assign (x y : Test_Object) :
    ∃ s s1, run State.empty
        (Op.ctor_value x 0 0 :: (List.replicate (UINT_MOD - 2) 0).map Op.ctor_copy
          ++ [Op.ctor_value y 1 1]) = some s ∧
      s.handle (UINT_MOD - 1) = some ⟨some 1, some 1⟩ ∧
      s.handle 0 = some ⟨some 0, some 0⟩ ∧
      s.counters 0 = some (UINT_MOD - 1) ∧
      shared_ptr.assign s (UINT_MOD - 1) 0 = some s1 ∧
      s1.counters 0 = some 0 := by
  have h := run_sharing x 0 0 (List.replicate (UINT_MOD - 2) 0)
    (sourcesBelow_replicate _ 1 Nat.one_pos)
  have hlen : UINT_MOD - 2 + 1 = UINT_MOD - 1 := by
    unfold UINT_MOD
    norm_num
  rw [List.length_replicate, hlen] at h
  have hmod : (UINT_MOD - 1) % UINT_MOD = UINT_MOD - 1 := by
    unfold UINT_MOD
    norm_num
  have hs : sharing x 0 0 (UINT_MOD - 1)
      = ⟨Store.write Store.empty 0 (UINT_MOD - 1), Store.write Store.empty 0 x,
          List.replicate (UINT_MOD - 1) (some ⟨some 0, some 0⟩)⟩ := by
    unfold sharing
    rw [hmod]
  rw [hs] at h
  have hrun := run_append _ [Op.ctor_value y 1 1] _ _ h
  have hlast := shared_ptr.ctor_value_eq
    (⟨Store.write Store.empty 0 (UINT_MOD - 1), Store.write Store.empty 0 x,
      List.replicate (UINT_MOD - 1) (some ⟨some 0, some 0⟩)⟩ : State Test_Object) y 1 1
    (by simp [Store.write, Store.empty]) (by simp [Store.write, Store.empty])
  have hlast2 : run
      (⟨Store.write Store.empty 0 (UINT_MOD - 1), Store.write Store.empty 0 x,
        List.replicate (UINT_MOD - 1) (some ⟨some 0, some 0⟩)⟩ : State Test_Object)
      [Op.ctor_value y 1 1]
      = some ⟨(Store.write Store.empty 0 (UINT_MOD - 1)).write 1 1,
          (Store.write Store.empty 0 x).write 1 y,
          List.replicate (UINT_MOD - 1) (some ⟨some 0, some 0⟩)
            ++ [some ⟨some 1, some 1⟩]⟩ := by
    simp only [run, step, hlast]
  rw [hlast2] at hrun
  have hpos : 0 < UINT_MOD - 1 := by
    unfold UINT_MOD
    norm_num
  have ha : slot (List.replicate (UINT_MOD - 1) (some (shared_ptr.mk (some 0) (some 0)))
      ++ [some ⟨some 1, some 1⟩]) (UINT_MOD - 1) = some ⟨some 1, some 1⟩ := by
    have := slot_append_length
      (List.replicate (UINT_MOD - 1) (some (shared_ptr.mk (some 0) (some 0))))
      (some ⟨some 1, some 1⟩)
    rw [List.length_replicate] at this
    exact this
  have hb : slot (List.replicate (UINT_MOD - 1) (some (shared_ptr.mk (some 0) (some 0)))
      ++ [some ⟨some 1, some 1⟩]) 0 = some ⟨some 0, some 0⟩ := by
    rw [slot_append_left _ _ (by rw [List.length_replicate]; exact hpos)]
    exact sharing_handle x 0 0 (UINT_MOD - 1) 0 hpos
  have hz : uint_dec 1 = 0 := by
    unfold uint_dec UINT_MOD
    norm_num
  have hwrap : uint_inc (UINT_MOD - 1) = 0 := by
    unfold uint_inc UINT_MOD
    norm_num
  have hrel := shared_ptr.release_free
    (⟨(Store.write Store.empty 0 (UINT_MOD - 1)).write 1 1,
      (Store.write Store.empty 0 x).write 1 y,
      List.replicate (UINT_MOD - 1) (some ⟨some 0, some 0⟩)
        ++ [some ⟨some 1, some 1⟩]⟩ : State Test_Object)
    ⟨some 1, some 1⟩ 1 1 (((Store.write Store.empty 0 x).write 1 y).free 1) rfl
    (by simp [Store.write]) hz
    (Store.delete_live_eq _ 1 y (by simp [Store.write]))
  have hacq := shared_ptr.acquire_eq
    (⟨((Store.write Store.empty 0 (UINT_MOD - 1)).write 1 1).free 1,
      ((Store.write Store.empty 0 x).write 1 y).free 1,
      List.replicate (UINT_MOD - 1) (some ⟨some 0, some 0⟩)
        ++ [some ⟨some 1, some 1⟩]⟩ : State Test_Object)
    (UINT_MOD - 1) ⟨some 0, some 0⟩ 0 (UINT_MOD - 1) rfl
    (by simp [Store.write, Store.free])
  have hne : UINT_MOD - 1 ≠ 0 := Nat.pos_iff_ne_zero.mp hpos
  have hassign := (shared_ptr.assign_eq
    (⟨(Store.write Store.empty 0 (UINT_MOD - 1)).write 1 1,
      (Store.write Store.empty 0 x).write 1 y,
      List.replicate (UINT_MOD - 1) (some ⟨some 0, some 0⟩)
        ++ [some ⟨some 1, some 1⟩]⟩ : State Test_Object)
    (⟨((Store.write Store.empty 0 (UINT_MOD - 1)).write 1 1).free 1,
      ((Store.write Store.empty 0 x).write 1 y).free 1,
      List.replicate (UINT_MOD - 1) (some ⟨some 0, some 0⟩)
        ++ [some ⟨some 1, some 1⟩]⟩ : State Test_Object)
    (UINT_MOD - 1) 0 (shared_ptr.mk (some 1) (some 1)) (shared_ptr.mk (some 0) (some 0)))
  have hassign1 := hassign ha
  have hassign2 := hassign1 hb
  have hassign3 := hassign2 hne
  have hassign4 := hassign3 hrel
  have hassign5 := hassign4.trans hacq
  refine ⟨_, _, hrun, ha, hb, ?_, hassign5, ?_⟩
  · simp [Store.write]
  · simp [Store.write, hwrap]

theorem uint_inc_one : uint_inc 1 = 2 := by
  unfold uint_inc UINT_MOD
  norm_num

theorem uint_dec_two : uint_dec 2 = 1 := by
  unfold uint_dec UINT_MOD
  norm_num

theorem uint_dec_one : uint_dec 1 = 0 := by
  unfold uint_dec UINT_MOD
  norm_num

theorem set_slot_self {α : Type} (l : List (Option α)) (i : Nat) (h : α)
    (hi : slot l i = some h) : l.set i (some h) = l := by
  rw [slot_eq_some] at hi
  induction l generalizing i with
  | nil => rfl
  | cons x l ih =>
    cases i with
    | zero =>
      simp at hi
      simp [hi]
    | succ i =>
      simp at hi
      simp [ih i hi]

theorem Store.write_same {α : Type} (m : Store α) (p : Addr) (x : α) (h : m p = some x) :
    m.write p x = m := by
  funext q
  by_cases hq : q = p
  · simp [Store.write, hq, h]
  · simp [Store.write, hq]

theorem uint_inc_dec (n : Nat) (h1 : 1 ≤ n) (h2 : n < UINT_MOD) :
    uint_inc (uint_dec n) = n := by
  simp only [uint_inc, uint_dec, UINT_MOD] at *
  omega

/-- The copy construction that brings the number of handles to `2 ^ 32` wraps the counter
from `2 ^ 32 - 1` to 0. -/
theorem sharing_wraps_copy (x : T) :
    ∃ s s1 : State T, run State.empty
        (Op.ctor_value x 0 0 :: (List.replicate (UINT_MOD - 2) 0).map Op.ctor_copy)
          = some s ∧
      s.liveCount = UINT_MOD - 1 ∧ s.counters 0 = some (UINT_MOD - 1) ∧
      shared_ptr.ctor_copy s 0 = some s1 ∧
      s1.liveCount = UINT_MOD ∧ s1.counters 0 = some 0 := by
  have h := run_sharing x 0 0 (List.replicate (UINT_MOD - 2) 0)
    (sourcesBelow_replicate _ 1 Nat.one_pos)
  have hlen : UINT_MOD - 2 + 1 = UINT_MOD - 1 := by
    unfold UINT_MOD
    norm_num
  rw [List.length_replicate, hlen] at h
  have hmod : (UINT_MOD - 1) % UINT_MOD = UINT_MOD - 1 := by
    unfold UINT_MOD
    norm_num
  have hpos : 0 < UINT_MOD - 1 := by
    unfold UINT_MOD
    norm_num
  have hcopy := sharing_ctor_copy x 0 0 (UINT_MOD - 1) 0 hpos
  rw [UINT_MOD_pred_succ] at hcopy
  have hlive : ∀ m, (sharing x 0 0 m).liveCount = m := by
    intro m
    show (List.replicate _ _).countP _ = _
    rw [List.countP_replicate]
    simp
  refine ⟨sharing x 0 0 (UINT_MOD - 1), sharing x 0 0 UINT_MOD, h, hlive _, ?_, hcopy,
    hlive _, ?_⟩
  · rw [sharing_counters, hmod]
  · rw [sharing_counters, Nat.mod_self]

theorem shared_ptr.dtor_dangling (s : State T) (i : Nat) (h : shared_ptr) (c : Addr)
    (hi : s.handle i = some h) (hc : h._refCount = some c) (hn : s.counters c = none) :
    shared_ptr.dtor s i = none := by
  simp only [shared_ptr.dtor, hi, hc, hn]

theorem run_cons (s s1 : State T) (op : Op T) (ops : List (Op T))
    (h : step s op = some s1) : run s (op :: ops) = run s1 ops := by
  simp only [run, h]

/-- With `2 ^ 32 + 1` handles sharing one payload (counter 1) and one more handle `b` of
its own group, the copy assignment of `b` to the first handle deallocates the shared counter;
the second handle still points to it, and destroying that handle is undefined. -/
theorem sharing_wraps_dangling (x y : T) :
    ∃ s : State T, run State.empty
        (Op.ctor_value x 0 0 :: (List.replicate UINT_MOD 0).map Op.ctor_copy
          ++ [Op.ctor_value y 1 1, Op.assign 0 (UINT_MOD + 1)]) = some s ∧
      s.handle 1 = some ⟨some 0, some 0⟩ ∧ s.counters 0 = none ∧
      shared_ptr.dtor s 1 = none := by
  have h := run_sharing x 0 0 (List.replicate UINT_MOD 0)
    (sourcesBelow_replicate _ 1 Nat.one_pos)
  rw [List.length_replicate] at h
  have hmod : (UINT_MOD + 1) % UINT_MOD = 1 := by
    unfold UINT_MOD
    norm_num
  have hs : sharing x 0 0 (UINT_MOD + 1)
      = ⟨Store.write Store.empty 0 1, Store.write Store.empty 0 x,
          List.replicate (UINT_MOD + 1) (some ⟨some 0, some 0⟩)⟩ := by
    unfold sharing
    rw [hmod]
  rw [hs] at h
  have hrun := run_append _ [Op.ctor_value y 1 1, Op.assign 0 (UINT_MOD + 1)] _ _ h
  have e1 := shared_ptr.ctor_value_eq
    (⟨Store.write Store.empty 0 1, Store.write Store.empty 0 x,
      List.replicate (UINT_MOD + 1) (some (shared_ptr.mk (some 0) (some 0)))⟩ : State T)
    y 1 1 (by simp [Store.write, Store.empty]) (by simp [Store.write, Store.empty])
  have ha : slot (List.replicate (UINT_MOD + 1) (some (shared_ptr.mk (some 0) (some 0)))
      ++ [some (shared_ptr.mk (some 1) (some 1))]) 0 = some ⟨some 0, some 0⟩ := by
    rw [slot_append_left _ _ (by rw [List.length_replicate]; exact Nat.succ_pos _)]
    exact sharing_handle x 0 0 (UINT_MOD + 1) 0 (Nat.succ_pos _)
  have hb : slot (List.replicate (UINT_MOD + 1) (some (shared_ptr.mk (some 0) (some 0)))
      ++ [some (shared_ptr.mk (some 1) (some 1))]) (UINT_MOD + 1) = some ⟨some 1, some 1⟩ := by
    have := slot_append_length
      (List.replicate (UINT_MOD + 1) (some (shared_ptr.mk (some 0) (some 0))))
      (some (shared_ptr.mk (some 1) (some 1)))
    rw [List.length_replicate] at this
    exact this
  have hone : 1 < UINT_MOD + 1 := by
    unfold UINT_MOD
    norm_num
  have h1 : slot (List.replicate (UINT_MOD + 1) (some (shared_ptr.mk (some 0) (some 0)))
      ++ [some (shared_ptr.mk (some 1) (some 1))]) 1 = some ⟨some 0, some 0⟩ := by
    rw [slot_append_left _ _ (by rw [List.length_replicate]; exact hone)]
    exact sharing_handle x 0 0 (UINT_MOD + 1) 1 hone
  have hz : uint_dec 1 = 0 := by
    unfold uint_dec UINT_MOD
    norm_num
  have hrel := shared_ptr.release_free
    (⟨(Store.write Store.empty 0 1).write 1 1, (Store.write Store.empty 0 x).write 1 y,
      List.replicate (UINT_MOD + 1) (some (shared_ptr.mk (some 0) (some 0)))
        ++ [some (shared_ptr.mk (some 1) (some 1))]⟩ : State T)
    (shared_ptr.mk (some 0) (some 0)) 0 1 (((Store.write Store.empty 0 x).write 1 y).free 0)
    rfl (by simp [Store.write]) hz
    (Store.delete_live_eq _ 0 x (by simp [Store.write]))
  have hacq := shared_ptr.acquire_eq
    (⟨((Store.write Store.empty 0 1).write 1 1).free 0,
      ((Store.write Store.empty 0 x).write 1 y).free 0,
      List.replicate (UINT_MOD + 1) (some (shared_ptr.mk (some 0) (some 0)))
        ++ [some (shared_ptr.mk (some 1) (some 1))]⟩ : State T)
    0 (shared_ptr.mk (some 1) (some 1)) 1 1 rfl (by simp [Store.write, Store.free])
  have hne : (0 : Nat) ≠ UINT_MOD + 1 := Nat.ne_of_lt (Nat.succ_pos _)
  have hassign := shared_ptr.assign_eq
    (⟨(Store.write Store.empty 0 1).write 1 1, (Store.write Store.empty 0 x).write 1 y,
      List.replicate (UINT_MOD + 1) (some (shared_ptr.mk (some 0) (some 0)))
        ++ [some (shared_ptr.mk (some 1) (some 1))]⟩ : State T)
    (⟨((Store.write Store.empty 0 1).write 1 1).free 0,
      ((Store.write Store.empty 0 x).write 1 y).free 0,
      List.replicate (UINT_MOD + 1) (some (shared_ptr.mk (some 0) (some 0)))
        ++ [some (shared_ptr.mk (some 1) (some 1))]⟩ : State T)
    0 (UINT_MOD + 1) (shared_ptr.mk (some 0) (some 0)) (shared_ptr.mk (some 1) (some 1))
  have hassign1 := hassign ha
  have hassign2 := hassign1 hb
  have hassign3 := hassign2 hne
  have hassign4 := hassign3 hrel
  have hassign5 := hassign4.trans hacq
  have st1 : step
      (⟨Store.write Store.empty 0 1, Store.write Store.empty 0 x,
        List.replicate (UINT_MOD + 1) (some (shared_ptr.mk (some 0) (some 0)))⟩ : State T)
      (Op.ctor_value y 1 1)
      = some ⟨(Store.write Store.empty 0 1).write 1 1,
          (Store.write Store.empty 0 x).write 1 y,
          List.replicate (UINT_MOD + 1) (some (shared_ptr.mk (some 0) (some 0)))
            ++ [some (shared_ptr.mk (some 1) (some 1))]⟩ := e1
  have st2 : step
      (⟨(Store.write Store.empty 0 1).write 1 1, (Store.write Store.empty 0 x).write 1 y,
        List.replicate (UINT_MOD + 1) (some (shared_ptr.mk (some 0) (some 0)))
          ++ [some (shared_ptr.mk (some 1) (some 1))]⟩ : State T)
      (Op.assign 0 (UINT_MOD + 1))
      = some ⟨(((Store.write Store.empty 0 1).write 1 1).free 0).write 1 (uint_inc 1),
          ((Store.write Store.empty 0 x).write 1 y).free 0,
          (List.replicate (UINT_MOD + 1) (some (shared_ptr.mk (some 0) (some 0)))
            ++ [some (shared_ptr.mk (some 1) (some 1))]).set 0
              (some (shared_ptr.mk (some 1) (some 1)))⟩ := hassign5
  have hlast := (run_cons _ _ (Op.ctor_value y 1 1) [Op.assign 0 (UINT_MOD + 1)] st1).trans
    (run_cons _ _ (Op.assign 0 (UINT_MOD + 1)) [] st2)
  have hrun2 := hrun.trans hlast
  have hfin1 : slot ((List.replicate (UINT_MOD + 1) (some (shared_ptr.mk (some 0) (some 0)))
      ++ [some (shared_ptr.mk (some 1) (some 1))]).set 0
        (some (shared_ptr.mk (some 1) (some 1)))) 1 = some ⟨some 0, some 0⟩ := by
    rw [slot_set_ne _ _ (by decide)]
    exact h1
  have hcnt : ((((Store.write Store.empty 0 1).write 1 1).free 0).write 1 (uint_inc 1)
      : Store Nat) 0 = none := by
    simp [Store.write, Store.free]
  exact ⟨⟨(((Store.write Store.empty 0 1).write 1 1).free 0).write 1 (uint_inc 1),
      ((Store.write Store.empty 0 x).write 1 y).free 0,
      (List.replicate (UINT_MOD + 1) (some (shared_ptr.mk (some 0) (some 0)))
        ++ [some (shared_ptr.mk (some 1) (some 1))]).set 0
          (some (shared_ptr.mk (some 1) (some 1)))⟩,
    hrun2, hfin1, hcnt,
    shared_ptr.dtor_dangling _ 1 (shared_ptr.mk (some 0) (some 0)) 0 hfin1 rfl hcnt⟩

theorem grouped_of_subset (s s1 : State T) (hg : Grouped s)
    (hh : ∀ h, some h ∈ s1.handles → some h ∈ s.handles) : Grouped s1 :=
  fun h1 h2 c hm1 hm2 => hg h1 h2 c (hh h1 hm1) (hh h2 hm2)

theorem grouped_of_fresh (s : State T) (hcl : Clean s) (hg : Grouped s) (h0 : shared_ptr)
    (c : Addr) (hc0 : h0._refCount = some c) (hfree : s.counters c = none)
    (l : List (Option shared_ptr)) (hl : l = s.handles ++ [some h0])
    (counters : Store Nat) (values : Store T) :
    Grouped (⟨counters, values, l⟩ : State T) := by
  subst hl
  have hold : ∀ h, some h ∈ s.handles → h._refCount ≠ some c := by
    intro h hm hc
    obtain ⟨n, hn⟩ := hcl.counterLive h c hm hc
    rw [hfree] at hn
    cases hn
  intro h1 h2 q hm1 hm2 hq1 hq2
  rcases mem_append_handle hm1 with ho1 | he1
  · rcases mem_append_handle hm2 with ho2 | he2
    · exact hg h1 h2 q ho1 ho2 hq1 hq2
    · rw [he2, hc0] at hq2
      cases hq2
      exact absurd hq1 (hold h1 ho1)
  · rcases mem_append_handle hm2 with ho2 | he2
    · rw [he1, hc0] at hq1
      cases hq1
      exact absurd hq2 (hold h2 ho2)
    · rw [he1, he2]

/-- Handles of one counter keep sharing one payload pointer under every operation on a state
that fits together. -/
theorem step_grouped (s s1 : State T) (op : Op T) (hcl : Clean s) (hg : Grouped s)
    (hstep : step s op = some s1) : Grouped s1 := by
  cases op with
  | ctor_default c =>
    obtain ⟨hfree, hs1⟩ := shared_ptr.ctor_default_inv hstep
    subst hs1
    exact grouped_of_fresh s hcl hg ⟨some c, none⟩ c rfl hfree _ rfl _ _
  | ctor_value value c v =>
    obtain ⟨hfree, _, hs1⟩ := shared_ptr.ctor_value_inv hstep
    subst hs1
    exact grouped_of_fresh s hcl hg ⟨some c, some v⟩ c rfl hfree _ rfl _ _
  | ctor_copy other =>
    obtain ⟨o, ho, hcase⟩ := shared_ptr.ctor_copy_inv hstep
    have hsub : ∀ h, some h ∈ s.handles ++ [some o] → some h ∈ s.handles := by
      intro h hm
      rcases mem_append_handle hm with hm | hm
      · exact hm
      · subst hm
        exact State.mem_of_handle ho
    rcases hcase with ⟨_, hs1⟩ | ⟨c, n, _, _, hs1⟩
    · subst hs1
      exact grouped_of_subset s _ hg hsub
    · subst hs1
      exact grouped_of_subset s _ hg hsub
  | dtor this =>
    obtain ⟨h0, c, n, _, _, _, ⟨_, hs1⟩ | ⟨_, values, _, hs1⟩⟩ := shared_ptr.dtor_inv hstep
    · subst hs1
      exact grouped_of_subset s _ hg (fun h hm => mem_set_none hm)
    · subst hs1
      exact grouped_of_subset s _ hg (fun h hm => mem_set_none hm)
  | assign this other =>
    obtain ⟨h0, o, hh, ho, ⟨_, hs1⟩ | ⟨hne, s0, hrel, hacq⟩⟩ := shared_ptr.assign_inv hstep
    · subst hs1
      exact hg
    · have hs0 : s0.handles = s.handles := (shared_ptr.release_frame hrel).1
      have hs1 : s1.handles = s.handles.set this (some o) := by
        rcases shared_ptr.acquire_inv hacq with ⟨_, hs1⟩ | ⟨c, n, _, _, hs1⟩
        all_goals
          subst hs1
          rw [← hs0]
      refine grouped_of_subset s s1 hg ?_
      intro h hm
      rw [hs1] at hm
      rcases mem_set_handle hm with hm | hm
      · exact hm
      · subst hm
        exact State.mem_of_handle ho

/-- Along every run the handles of one counter share one payload pointer, unless a counter
has overflowed. -/
theorem run_grouped (ops : List (Op T)) :
    ∀ s s1 : State T, CounterNonNull s → CounterInv s → (Clean s ∧ Grouped s) ∨ Overflowed s →
      run s ops = some s1 → (Clean s1 ∧ Grouped s1) ∨ Overflowed s1 := by
  induction ops with
  | nil =>
    intro s s1 _ _ hco hrun
    simp only [run, Option.some.injEq] at hrun
    subst hrun
    exact hco
  | cons op ops ih =>
    intro s s1 hnn hci hco hrun
    simp only [run] at hrun
    cases hst : step s op with
    | none => simp [hst] at hrun
    | some s2 =>
      simp only [hst] at hrun
      refine ih s2 s1 (step_counterNonNull s s2 op hnn hst) ?_ ?_ hrun
      · intro c
        exact agrees_of_counterStep (hci c) (step_counterStep s s2 op hnn hst c)
      · rcases hco with ⟨hcl, hg⟩ | hov
        · rcases step_clean s s2 op hnn hci hcl hst with hcl2 | hov2
          · exact Or.inl ⟨hcl2, step_grouped s s2 op hcl hg hst⟩
          · exact Or.inr hov2
        · exact Or.inr (step_overflowed s s2 op hnn hci hov hst)

theorem Reachable.grouped {s : State T} (hr : Reachable s) (hlt : s.liveCount < UINT_MOD) :
    Grouped s := by
  obtain ⟨ops, hrun⟩ := hr
  have h0n : CounterNonNull (State.empty : State T) := by
    intro i h hi
    rw [State.empty_handle] at hi
    cases hi
  have h0c : CounterInv (State.empty : State T) := by
    intro c
    show (0 : Nat) % UINT_MOD = 0
    rfl
  have h0k : Clean (State.empty : State T) := by
    refine ⟨?_, ?_, ?_⟩ <;> intro h <;> intros <;> simp [State.empty] at *
  have h0g : Grouped (State.empty : State T) := by
    intro h1 h2 c hm
    simp [State.empty] at hm
  rcases run_grouped ops State.empty s h0n h0c (Or.inl ⟨h0k, h0g⟩) hrun with ⟨_, hg⟩ | hov
  · exact hg
  · have := hov.le_liveCount
    omega

theorem uint_inc_dec_of_lt (n : Nat) (h : n < UINT_MOD) : uint_inc (uint_dec n) = n := by
  simp only [uint_inc, uint_dec, UINT_MOD] at *
  omega

/-- Copy assignment between live handles of a reachable state with fewer than `2 ^ 32` live
handles is defined. -/
theorem shared_ptr.assign_defined (s : State T) (hr : Reachable s)
    (hlt : s.liveCount < UINT_MOD) (d src : Nat) (hd h : shared_ptr)
    (hld : s.handle d = some hd) (hs : s.handle src = some h) :
    ∃ s1, shared_ptr.assign s d src = some s1 := by
  by_cases hds : d = src
  · subst hds
    exact ⟨s, by simp [shared_ptr.assign, hld]⟩
  · obtain ⟨hnn, hcl, hexact⟩ := hr.clean hlt
    obtain ⟨cd, hcd⟩ := hnn d hd hld
    obtain ⟨c, hc⟩ := hnn src h hs
    obtain ⟨nd, hnd⟩ := hcl.counterLive hd cd (State.mem_of_handle hld) hcd
    obtain ⟨n, hn⟩ := hcl.counterLive h c (State.mem_of_handle hs) hc
    obtain ⟨hud, h1d⟩ := hexact cd nd hnd
    have hbound : nd < UINT_MOD := by
      have := s.useCount_le_liveCount cd
      omega
    by_cases hone : nd = 1
    · obtain ⟨values, hdel⟩ := Store.delete_defined s.values hd._raw
        (fun v hv => hcl.rawLive hd v (State.mem_of_handle hld) hv)
      have hrel := shared_ptr.release_free s hd cd nd values hcd hnd
        ((uint_dec_eq_zero nd hbound).mpr hone) hdel
      have hne : c ≠ cd := by
        intro he
        subst he
        exact s.useCount_one d src hd h c (by omega) hld hcd (Ne.symm hds) hs hc
      have hacq := shared_ptr.acquire_eq
        (⟨s.counters.free cd, values, s.handles⟩ : State T) d h c n hc
        (by simp [Store.free, hne, hn])
      exact ⟨_, (shared_ptr.assign_eq s _ d src hd h hld hs hds hrel).trans hacq⟩
    · have hrel := shared_ptr.release_keep s hd cd nd hcd hnd
        (fun hz => hone ((uint_dec_eq_zero nd hbound).mp hz))
      obtain ⟨m, hm⟩ := Store.write_live s.counters cd c (uint_dec nd) ⟨n, hn⟩
      have hacq := shared_ptr.acquire_eq
        (⟨s.counters.write cd (uint_dec nd), s.values, s.handles⟩ : State T) d h c m hc hm
      exact ⟨_, (shared_ptr.assign_eq s _ d src hd h hld hs hds hrel).trans hacq⟩

/-! ## Statements about `shared_ptr` -/

/-- C1, amended. In every state reached from the empty free store by any finite sequence of
`shared_ptr` operations, each live counter to which fewer than `2 ^ 32` live handles refer
holds exactly the number of live handles whose `_refCount` points to it, and that number is
at least 1. -/
theorem shared_refcount_invariant (s : State T) (hr : Reachable s) (c : Addr) (n : Nat)
    (hc : s.counters c = some n) (hlt : s.useCount c < UINT_MOD) :
    n = s.useCount c ∧ 1 ≤ n := by
  have hag := hr.counterInv.2 c
  rw [hc] at hag
  simp only [Agrees] at hag
  rw [Nat.mod_eq_of_lt hlt] at hag
  omega

/-- Witness for C1, amended: `V(10, 50.0)` wrapped once and copied once; the counter holds
2 and two live handles refer to it. -/
theorem shared_refcount_invariant_witness :
    ∃ s : State Test_Object,
      run State.empty [.ctor_value ⟨10, 50⟩ 0 0, .ctor_copy 0] = some s ∧
      s.counters 0 = some 2 ∧ s.useCount 0 < UINT_MOD ∧ 2 = s.useCount 0 ∧ 1 ≤ 2 :=
  ⟨sharing (Test_Object.mk 10 50) 0 0 2,
    run_sharing (Test_Object.mk 10 50) 0 0 [0] ⟨by decide, trivial⟩, by decide, by decide,
    shared_refcount_invariant (sharing (Test_Object.mk 10 50) 0 0 2)
      ⟨[.ctor_value (Test_Object.mk 10 50) 0 0, .ctor_copy 0],
        run_sharing (Test_Object.mk 10 50) 0 0 [0] ⟨by decide, trivial⟩⟩
      0 2 (by decide) (by decide)⟩

/-- C1, as the claim states it, fails: after one value-wrapping construction and
`2 ^ 32 - 1` copy constructions, `2 ^ 32` live handles point to the counter and the counter
holds 0. -/
theorem shared_refcount_wraps :
    ∃ s : State Test_Object, run State.empty
        (Op.ctor_value ⟨10, 50⟩ 0 0 :: (List.replicate (UINT_MOD - 1) 0).map Op.ctor_copy)
          = some s ∧
      s.counters 0 = some 0 ∧ s.useCount 0 = UINT_MOD :=
  sharing_wraps ⟨10, 50⟩

/-- C2, amended. In every reachable state, a release of a live handle (the destructor, or the
release step of copy assignment) that is defined deallocates the counter and the payload if
the counter read 1 immediately before, and otherwise leaves both allocated.  When fewer than
`2 ^ 32` handles are live the release is defined (every `delete` it performs is of a live
object, so nothing is deallocated twice), the counter reads at least 1, and a counter or
payload that is deallocated is referred to by no other live handle. -/
theorem shared_release_exactly_once (s : State T) (hr : Reachable s) (i : Nat)
    (h : shared_ptr) (hi : s.handle i = some h) :
    (∀ s1, shared_ptr.dtor s i = some s1 ∨ shared_ptr.release s h = some s1 →
      ∃ c n, h._refCount = some c ∧ s.counters c = some n ∧
        ((n = 1 ∧ s1.counters c = none ∧ ∀ v, h._raw = some v → s1.values v = none) ∨
         (n ≠ 1 ∧ s1.counters c = some (uint_dec n) ∧ s1.values = s.values))) ∧
    (s.liveCount < UINT_MOD →
      ∃ c n s1 s2, h._refCount = some c ∧ s.counters c = some n ∧ 1 ≤ n ∧
        shared_ptr.dtor s i = some s1 ∧ shared_ptr.release s h = some s2 ∧
        (n = 1 → (∀ v, h._raw = some v → ∃ x, s.values v = some x) ∧
          ∀ j hj, j ≠ i → s.handle j = some hj →
            hj._refCount ≠ some c ∧ ∀ v, h._raw = some v → hj._raw ≠ some v)) := by
  obtain ⟨hnn, hci⟩ := hr.counterInv
  obtain ⟨c, hc⟩ := hnn i h hi
  have hbound : ∀ n, s.counters c = some n → n < UINT_MOD := by
    intro n hn
    have hag := hci c
    rw [hn] at hag
    simp only [Agrees, UINT_MOD] at hag ⊢
    omega
  constructor
  · intro s1 hs1
    have key : ∃ n values, s.counters c = some n ∧
        ((uint_dec n ≠ 0 ∧ s1.counters = s.counters.write c (uint_dec n) ∧
            s1.values = s.values) ∨
         (uint_dec n = 0 ∧ Store.delete s.values h._raw = some values ∧
            s1.counters = s.counters.free c ∧ s1.values = values)) := by
      rcases hs1 with hd | hrel
      · obtain ⟨h0, c0, n, hh, hc0, hn, hcase⟩ := shared_ptr.dtor_inv hd
        rw [hi] at hh
        cases hh
        rw [hc] at hc0
        cases hc0
        rcases hcase with ⟨hz, hs⟩ | ⟨hz, values, hdel, hs⟩
        · subst hs
          exact ⟨n, s.values, hn, Or.inl ⟨hz, rfl, rfl⟩⟩
        · subst hs
          exact ⟨n, values, hn, Or.inr ⟨hz, hdel, rfl, rfl⟩⟩
      · rcases shared_ptr.release_inv hrel with ⟨hnone, _⟩ | ⟨c0, n, hc0, hn, hcase⟩
        · rw [hnone] at hc
          cases hc
        · rw [hc] at hc0
          cases hc0
          rcases hcase with ⟨hz, hs⟩ | ⟨hz, values, hdel, hs⟩
          · subst hs
            exact ⟨n, s.values, hn, Or.inl ⟨hz, rfl, rfl⟩⟩
          · subst hs
            exact ⟨n, values, hn, Or.inr ⟨hz, hdel, rfl, rfl⟩⟩
    obtain ⟨n, values, hn, hcase⟩ := key
    refine ⟨c, n, hc, hn, ?_⟩
    rcases hcase with ⟨hz, hcs, hvs⟩ | ⟨hz, hdel, hcs, hvs⟩
    · right
      refine ⟨fun h1 => hz ((uint_dec_eq_zero n (hbound n hn)).mpr h1), ?_, hvs⟩
      rw [hcs]
      simp [Store.write]
    · left
      refine ⟨(uint_dec_eq_zero n (hbound n hn)).mp hz, ?_, ?_⟩
      · rw [hcs]
        simp [Store.free]
      · intro v hv
        rw [hvs]
        rw [hv] at hdel
        exact Store.delete_none_at hdel
  · intro hlt
    obtain ⟨_, hcl, hexact⟩ := hr.clean hlt
    obtain ⟨n, hn⟩ := hcl.counterLive h c (State.mem_of_handle hi) hc
    obtain ⟨huse, h1⟩ := hexact c n hn
    have hlive : ∀ v, h._raw = some v → ∃ x, s.values v = some x :=
      fun v hv => hcl.rawLive h v (State.mem_of_handle hi) hv
    by_cases hone : n = 1
    · obtain ⟨values, hdel⟩ := Store.delete_defined s.values h._raw hlive
      have hz := (uint_dec_eq_zero n (hbound n hn)).mpr hone
      refine ⟨c, n, _, _, hc, hn, h1,
        shared_ptr.dtor_free s i h c n values hi hc hn hz hdel,
        shared_ptr.release_free s h c n values hc hn hz hdel, ?_⟩
      intro _
      refine ⟨hlive, ?_⟩
      intro j hj hne hlj
      have hnot := s.useCount_one i j h hj c (by omega) hi hc hne hlj
      refine ⟨hnot, ?_⟩
      intro v hv hjv
      apply hnot
      rw [← hc]
      exact hcl.rawGroup hj h v (State.mem_of_handle hlj) (State.mem_of_handle hi) hjv hv
    · have hz : uint_dec n ≠ 0 := fun hz => hone ((uint_dec_eq_zero n (hbound n hn)).mp hz)
      exact ⟨c, n, _, _, hc, hn, h1, shared_ptr.dtor_keep s i h c n hi hc hn hz,
        shared_ptr.release_keep s h c n hc hn hz, fun h1 => absurd h1 hone⟩

/-- Witness for C2, amended: `V(10, 50.0)` wrapped once and copied once; the first handle is
released. -/
theorem shared_release_exactly_once_witness :
    ∃ s : State Test_Object,
      run State.empty [.ctor_value ⟨10, 50⟩ 0 0, .ctor_copy 0] = some s ∧
      s.liveCount < UINT_MOD ∧
      ∃ c n s1 s2, (⟨some 0, some 0⟩ : shared_ptr)._refCount = some c ∧
        s.counters c = some n ∧ 1 ≤ n ∧
        shared_ptr.dtor s 0 = some s1 ∧
        shared_ptr.release s ⟨some 0, some 0⟩ = some s2 ∧
        (n = 1 → (∀ v, (⟨some 0, some 0⟩ : shared_ptr)._raw = some v →
            ∃ x, s.values v = some x) ∧
          ∀ j hj, j ≠ 0 → s.handle j = some hj →
            hj._refCount ≠ some c ∧
              ∀ v, (⟨some 0, some 0⟩ : shared_ptr)._raw = some v → hj._raw ≠ some v) :=
  ⟨sharing (Test_Object.mk 10 50) 0 0 2,
    run_sharing (Test_Object.mk 10 50) 0 0 [0] ⟨by decide, trivial⟩, by decide,
    (shared_release_exactly_once (sharing (Test_Object.mk 10 50) 0 0 2)
      ⟨[.ctor_value (Test_Object.mk 10 50) 0 0, .ctor_copy 0],
        run_sharing (Test_Object.mk 10 50) 0 0 [0] ⟨by decide, trivial⟩⟩
      0 ⟨some 0, some 0⟩ rfl).2 (by decide)⟩

/-- C2, as the claim states it, fails: after one value-wrapping construction and `2 ^ 32`
copy constructions the counter reads 1 while `2 ^ 32 + 1` handles are live; destroying one of
them deallocates the counter and the payload while another live handle still refers to
both. -/
theorem shared_release_while_shared :
    ∃ s s1 : State Test_Object, run State.empty
        (Op.ctor_value ⟨10, 50⟩ 0 0 :: (List.replicate UINT_MOD 0).map Op.ctor_copy)
          = some s ∧
      s.counters 0 = some 1 ∧
      shared_ptr.dtor s 0 = some s1 ∧ s1.counters 0 = none ∧ s1.values 0 = none ∧
      s1.handle 1 = some ⟨some 0, some 0⟩ :=
  sharing_wraps_release ⟨10, 50⟩

/-- C3, amended. Copy construction gives the new handle the source's `_raw` and `_refCount`
and raises the counter by 1 as long as the counter stays below `2 ^ 32`.  Hence for every
`N` with `1 ≤ N < 2 ^ 32`: after one value-wrapping construction and `N - 1` copy
constructions from handles made so far, `get()` of all `N` handles is the same address and
the counter holds `N`; after any `k < N` of the handles are destroyed it holds `N - k`, and
after all `N` are destroyed counter and payload are deallocated. -/
theorem shared_copies_count (x : T) (c v : Addr) (srcs : List Nat)
    (hsrc : sourcesBelow 1 srcs) (hN : srcs.length + 1 < UINT_MOD) :
    (∀ (s : State T) (j : Nat) (h : shared_ptr) (c1 n : Nat), s.handle j = some h →
        h._refCount = some c1 → s.counters c1 = some n → n + 1 < UINT_MOD →
        ∃ s1, shared_ptr.ctor_copy s j = some s1 ∧
          s1.handle s.handles.length = some h ∧ s1.counters c1 = some (n + 1)) ∧
    ∃ s, run State.empty (Op.ctor_value x c v :: srcs.map Op.ctor_copy) = some s ∧
      s.liveCount = srcs.length + 1 ∧
      (∀ i, i < srcs.length + 1 →
        ∃ h, s.handle i = some h ∧ h.get = some v ∧ h._refCount = some c) ∧
      s.counters c = some (srcs.length + 1) ∧
      ∀ ds : List Nat, ds.Nodup → (∀ d ∈ ds, d < srcs.length + 1) →
        ∃ s1, run s (ds.map Op.dtor) = some s1 ∧
          if ds.length < srcs.length + 1 then
            s1.counters c = some (srcs.length + 1 - ds.length) ∧ s1.values v = some x
          else s1.counters c = none ∧ s1.values v = none := by
  constructor
  · intro s j h c1 n hj hc hn hlt
    refine ⟨_, shared_ptr.ctor_copy_eq s j h c1 n hj hc hn, slot_append_length _ _, ?_⟩
    simp [Store.write, uint_inc_of_lt n hlt]
  · have hcnt : (sharing x c v (srcs.length + 1)).counters c = some (srcs.length + 1) := by
      rw [sharing_counters, Nat.mod_eq_of_lt hN]
    refine ⟨sharing x c v (srcs.length + 1), run_sharing x c v srcs hsrc, ?_, ?_, hcnt, ?_⟩
    · show (List.replicate _ _).countP _ = _
      rw [List.countP_replicate]
      simp
    · intro i hi
      exact ⟨_, sharing_handle x c v _ i hi, rfl, rfl⟩
    · intro ds hnd hds
      have hlen : ds.length ≤ srcs.length + 1 := by
        have := (List.subperm_of_subset hnd
          (fun d hd => List.mem_range.mpr (hds d hd))).length_le
        simpa using this
      exact run_dtors_sharing x c v ds _ (srcs.length + 1) (by omega) hN
        (sharing_handle_inv x c v _) (sharing_useCount x c v _) hcnt
        (sharing_values x c v _) hnd
        (fun d hd => ⟨_, sharing_handle x c v _ d (hds d hd)⟩) hlen

/-- Witness for C3, amended: `V(10, 50.0)` wrapped once and copied twice, then two of the
three handles destroyed. -/
theorem shared_copies_count_witness :
    ∃ s s1 : State Test_Object,
      run State.empty [.ctor_value ⟨10, 50⟩ 0 0, .ctor_copy 0, .ctor_copy 1] = some s ∧
      s.counters 0 = some 3 ∧
      run s [.dtor 2, .dtor 0] = some s1 ∧
      s1.counters 0 = some 1 ∧ s1.values 0 = some ⟨10, 50⟩ := by
  obtain ⟨-, s, hrun, -, -, hcnt, hd⟩ :=
    shared_copies_count (⟨10, 50⟩ : Test_Object) 0 0 [0, 1]
      ⟨by decide, by decide, trivial⟩ (by decide)
  obtain ⟨s1, hrun1, hres⟩ := hd [2, 0] (by decide) (by decide)
  exact ⟨s, s1, hrun, hcnt, hrun1, hres⟩

/-- C3, as the claim states it, fails at `N = 2 ^ 32`: after one value-wrapping construction
and `2 ^ 32 - 1` copy constructions there are `2 ^ 32` live handles sharing the payload, the
counter holds 0, and destroying one of them takes the counter to `2 ^ 32 - 1`. -/
theorem shared_copies_count_wraps :
    ∃ s s1 : State Test_Object, run State.empty
        (Op.ctor_value ⟨10, 50⟩ 0 0 :: (List.replicate (UINT_MOD - 1) 0).map Op.ctor_copy)
          = some s ∧
      s.liveCount = UINT_MOD ∧ s.counters 0 = some 0 ∧
      shared_ptr.dtor s 0 = some s1 ∧ s1.counters 0 = some (UINT_MOD - 1) :=
  sharing_wraps_dtor ⟨10, 50⟩

/-- C4. Self-assignment `a = a` of a live `shared_ptr` changes nothing: the handles (so `a`'s
`_raw` and `_refCount`), every counter and every payload are as before, and nothing is
deallocated. -/
theorem shared_self_assign_noop (s : State T) (a : Nat) (h : shared_ptr)
    (ha : s.handle a = some h) : shared_ptr.assign s a a = some s := by
  simp [shared_ptr.assign, ha]

/-- Witness for C4: a handle wrapping `V(10, 50.0)` is assigned to itself. -/
theorem shared_self_assign_noop_witness :
    shared_ptr.assign
      (⟨Store.write Store.empty 3 1, Store.write Store.empty 5 ⟨10, 50⟩,
        [some ⟨some 3, some 5⟩]⟩ : State Test_Object) 0 0
      = some ⟨Store.write Store.empty 3 1, Store.write Store.empty 5 ⟨10, 50⟩,
        [some ⟨some 3, some 5⟩]⟩ :=
  shared_self_assign_noop _ 0 ⟨some 3, some 5⟩ rfl

/-- C5, amended. Copy assignment `a = b` between live handles of different groups, in a
reachable state with fewer than `2 ^ 32` live handles: `a`'s old counter (which reads at
least 1) is decremented by 1 and, if that makes it 0, `a`'s old payload and old counter are
deallocated (otherwise they stay allocated); afterwards `a` has `b`'s `_raw` and `_refCount`,
`b`'s counter is 1 higher than before, `b` and every other handle are unchanged, and no
counter or payload of another group is touched. -/
theorem shared_copy_assign_spec (s : State T) (hr : Reachable s)
    (hlt : s.liveCount < UINT_MOD) (a b : Nat) (ha hb : shared_ptr)
    (hla : s.handle a = some ha) (hlb : s.handle b = some hb)
    (hgrp : ha._refCount ≠ hb._refCount) :
    ∃ ca cb na nb s1, ha._refCount = some ca ∧ hb._refCount = some cb ∧
      s.counters ca = some na ∧ s.counters cb = some nb ∧ 1 ≤ na ∧
      shared_ptr.assign s a b = some s1 ∧
      (na = 1 → s1.counters ca = none ∧ ∀ v, ha._raw = some v → s1.values v = none) ∧
      (na ≠ 1 → s1.counters ca = some (na - 1) ∧ s1.values = s.values) ∧
      s1.handle a = some hb ∧ s1.handle b = some hb ∧
      s1.counters cb = some (nb + 1) ∧
      (∀ q, q ≠ ca → q ≠ cb → s1.counters q = s.counters q) ∧
      (∀ v, ha._raw ≠ some v → s1.values v = s.values v) ∧
      (∀ j hj, s.handle j = some hj → hj._refCount ≠ some ca →
        ∀ v, hj._raw = some v → s1.values v = s.values v) ∧
      ∀ i, i ≠ a → s1.handle i = s.handle i := by
  obtain ⟨hnn, hcl, hexact⟩ := hr.clean hlt
  obtain ⟨ca, hca⟩ := hnn a ha hla
  obtain ⟨cb, hcb⟩ := hnn b hb hlb
  have hcab : ca ≠ cb := by
    intro he
    apply hgrp
    rw [hca, hcb, he]
  have hab : a ≠ b := by
    intro he
    subst he
    rw [hla] at hlb
    cases hlb
    exact hgrp rfl
  obtain ⟨na, hna⟩ := hcl.counterLive ha ca (State.mem_of_handle hla) hca
  obtain ⟨nb, hnb⟩ := hcl.counterLive hb cb (State.mem_of_handle hlb) hcb
  obtain ⟨hua, h1a⟩ := hexact ca na hna
  obtain ⟨hub, h1b⟩ := hexact cb nb hnb
  have hsum := countRefs_add_le ca cb hcab s.handles
  have hsum1 : s.useCount ca + s.useCount cb ≤ s.liveCount := hsum
  have hinc : uint_inc nb = nb + 1 := uint_inc_of_lt nb (by omega)
  have hdec : uint_dec na = na - 1 := uint_dec_of_pos na h1a (by omega)
  have halt : a < s.handles.length := slot_lt hla
  have hother : ∀ j hj, s.handle j = some hj → hj._refCount ≠ some ca →
      ∀ v, hj._raw = some v → ha._raw ≠ some v := by
    intro j hj hlj hne v hjv hav
    apply hne
    rw [← hca]
    exact hcl.rawGroup hj ha v (State.mem_of_handle hlj) (State.mem_of_handle hla) hjv hav
  by_cases hone : na = 1
  · obtain ⟨values, hdel⟩ := Store.delete_defined s.values ha._raw
      (fun v hv => hcl.rawLive ha v (State.mem_of_handle hla) hv)
    have hrel := shared_ptr.release_free s ha ca na values hca hna
      (by rw [hdec, hone]) hdel
    have hacq := shared_ptr.acquire_eq
      (⟨s.counters.free ca, values, s.handles⟩ : State T) a hb cb nb hcb
      (by simp [Store.free, Ne.symm hcab, hnb])
    have hvals : ∀ v, ha._raw ≠ some v → values v = s.values v := by
      intro v hv
      rcases Store.delete_some hdel with ⟨_, hm⟩ | ⟨v0, x, hp, _, hm⟩
      · rw [hm]
      · subst hm
        have : v ≠ v0 := fun he => hv (he ▸ hp)
        simp [Store.free, this]
    refine ⟨ca, cb, na, nb, _, hca, hcb, hna, hnb, h1a,
      (shared_ptr.assign_eq s _ a b ha hb hla hlb hab hrel).trans hacq,
      ?_, fun hne => absurd hone hne, ?_, ?_, ?_, ?_, hvals, ?_, ?_⟩
    · intro _
      refine ⟨by simp [Store.write, Store.free, hcab], ?_⟩
      intro v hv
      rw [hv] at hdel
      exact Store.delete_none_at hdel
    · exact slot_set_self _ _ halt
    · show slot _ _ = _
      rw [slot_set_ne _ _ hab]
      exact hlb
    · simp [Store.write, hinc]
    · intro q hqa hqb
      simp [Store.write, Store.free, hqa, hqb]
    · intro j hj hlj hne v hjv
      exact hvals v (hother j hj hlj hne v hjv)
    · intro i hi
      exact slot_set_ne _ _ (Ne.symm hi)
  · have hrel := shared_ptr.release_keep s ha ca na hca hna (by rw [hdec]; omega)
    have hacq := shared_ptr.acquire_eq
      (⟨s.counters.write ca (uint_dec na), s.values, s.handles⟩ : State T) a hb cb nb hcb
      (by simp [Store.write, Ne.symm hcab, hnb])
    refine ⟨ca, cb, na, nb, _, hca, hcb, hna, hnb, h1a,
      (shared_ptr.assign_eq s _ a b ha hb hla hlb hab hrel).trans hacq,
      fun he => absurd he hone, ?_, ?_, ?_, ?_, ?_, fun _ _ => rfl,
      fun _ _ _ _ _ _ => rfl, ?_⟩
    · intro _
      exact ⟨by simp [Store.write, hcab, hdec], rfl⟩
    · exact slot_set_self _ _ halt
    · show slot _ _ = _
      rw [slot_set_ne _ _ hab]
      exact hlb
    · simp [Store.write, hinc]
    · intro q hqa hqb
      simp [Store.write, hqa, hqb]
    · intro i hi
      exact slot_set_ne _ _ (Ne.symm hi)

/-- Witness for C5, amended: `b` wraps `V(10, 50.0)`, `a` is default-constructed, then
`a = b`: `a`'s own counter is deallocated, `a` aliases `b`, and `b`'s counter goes from 1 to
2. -/
theorem shared_copy_assign_spec_witness :
    ∃ s s1 : State Test_Object,
      run State.empty [.ctor_value ⟨10, 50⟩ 0 0, .ctor_default 1] = some s ∧
      s.counters 0 = some 1 ∧ s.counters 1 = some 1 ∧
      shared_ptr.assign s 1 0 = some s1 ∧
      s1.handle 1 = some ⟨some 0, some 0⟩ ∧ s1.handle 0 = some ⟨some 0, some 0⟩ ∧
      s1.counters 0 = some 2 ∧ s1.counters 1 = none := by
  have hrun : run State.empty
      [Op.ctor_value (Test_Object.mk 10 50) 0 0, Op.ctor_default 1]
      = some ⟨(Store.write Store.empty 0 1).write 1 1,
          Store.write Store.empty 0 (Test_Object.mk 10 50),
          [some ⟨some 0, some 0⟩, some ⟨some 1, none⟩]⟩ := rfl
  obtain ⟨ca, cb, na, nb, s1, hca, hcb, hna, hnb, -, hassign, hfree, -, hha, hhb, hcnt, -⟩ :=
    shared_copy_assign_spec _ ⟨_, hrun⟩ (by decide) 1 0 ⟨some 1, none⟩ ⟨some 0, some 0⟩
      rfl rfl (by decide)
  cases hca
  cases hcb
  have h0 : ((Store.write Store.empty 0 1).write 1 1 : Store Nat) 0 = some 1 := by decide
  have h1 : ((Store.write Store.empty 0 1).write 1 1 : Store Nat) 1 = some 1 := by decide
  have hna1 : na = 1 := Option.some.inj (hna.symm.trans h1)
  have hnb1 : nb = 1 := Option.some.inj (hnb.symm.trans h0)
  subst hna1 hnb1
  exact ⟨_, s1, hrun, h0, h1, hassign, hha, hhb, hcnt, (hfree rfl).1⟩

/-- C5, as the claim states it, fails: `b`'s group has `2 ^ 32 - 1` handles (counter
`2 ^ 32 - 1`) and `a` wraps a payload of its own; after `a = b` the counter of `b`'s group
holds 0, not 1 more than before. -/
theorem shared_copy_assign_wraps :
    ∃ s s1 : State Test_Object, run State.empty
        (Op.ctor_value ⟨10, 50⟩ 0 0 :: (List.replicate (UINT_MOD - 2) 0).map Op.ctor_copy
          ++ [Op.ctor_value ⟨1, 10⟩ 1 1]) = some s ∧
      s.handle (UINT_MOD - 1) = some ⟨some 1, some 1⟩ ∧
      s.handle 0 = some ⟨some 0, some 0⟩ ∧
      s.counters 0 = some (UINT_MOD - 1) ∧
      shared_ptr.assign s (UINT_MOD - 1) 0 = some s1 ∧
      s1.counters 0 = some 0 :=
  sharing_wraps_assign ⟨10, 50⟩ ⟨1, 10⟩

/-- C6, amended. A `shared_ptr` has no move constructor and no move assignment: an rvalue
source binds to the `const shared_ptr&` copy operations and is never emptied.  In every
reachable state, for every live source handle `s` whose counter holds `c`:
copy-initialising a handle `d` from `move(s)` (`shared_ptr<T> d = move(s);`) takes the
counter to `c + 1` modulo `2 ^ 32`, makes `d` refer to `s`'s payload and counter and leaves
`s` unchanged; `s = move(s)` changes nothing; and for any other live handle `d`,
`d = move(s)` (defined whenever fewer than `2 ^ 32` handles are live) makes `d` refer to
`s`'s payload and counter, leaves `s` unchanged, and leaves the counter of `s`'s group at `c`
if `d` already belonged to the group and at `c + 1` modulo `2 ^ 32` otherwise. -/
theorem shared_rvalue_copies (s : State T) (hr : Reachable s) (src : Nat) (h : shared_ptr)
    (c n : Nat) (hs : s.handle src = some h) (hc : h._refCount = some c)
    (hn : s.counters c = some n) :
    (∃ s1, shared_ptr.ctor_copy s (move src) = some s1 ∧
      s1.counters c = some (uint_inc n) ∧
      s1.handle s.handles.length = some h ∧ s1.handle src = some h ∧
      s1.values = s.values) ∧
    shared_ptr.assign s src (move src) = some s ∧
    ∀ d hd, s.handle d = some hd → d ≠ src →
      (s.liveCount < UINT_MOD → ∃ s1, shared_ptr.assign s d (move src) = some s1) ∧
      ∀ s1, shared_ptr.assign s d (move src) = some s1 →
        s1.handle d = some h ∧ s1.handle src = some h ∧
        s1.counters c = some (if hd._refCount = some c then n else uint_inc n) := by
  have hlt : n < UINT_MOD := by
    have hag := hr.counterInv.2 c
    rw [hn] at hag
    simp only [Agrees, UINT_MOD] at hag ⊢
    omega
  refine ⟨?_, ?_, ?_⟩
  · refine ⟨_, shared_ptr.ctor_copy_eq s src h c n hs hc hn, by simp [Store.write],
      slot_append_length _ _, ?_, rfl⟩
    show slot _ _ = _
    rw [slot_append_left _ _ (slot_lt hs)]
    exact hs
  · simp [shared_ptr.assign, move, hs]
  · intro d hd hld hds
    refine ⟨fun hlive => shared_ptr.assign_defined s hr hlive d src hd h hld hs, ?_⟩
    intro s1 hassign
    obtain ⟨h0, o, hh0, ho, ⟨he, _⟩ | ⟨_, s0, hrel, hacq⟩⟩ := shared_ptr.assign_inv hassign
    · exact absurd he hds
    · have ho' : s.handle src = some o := ho
      rw [hld] at hh0
      cases hh0
      rw [hs] at ho'
      cases ho'
      obtain ⟨hhs, hcs⟩ := shared_ptr.release_frame hrel
      rcases shared_ptr.acquire_inv hacq with ⟨hnone, _⟩ | ⟨c1, m, hc1, hm, hs1⟩
      · rw [hnone] at hc
        cases hc
      · rw [hc] at hc1
        cases hc1
        subst hs1
        refine ⟨?_, ?_, ?_⟩
        · show slot _ _ = _
          rw [hhs]
          exact slot_set_self _ _ (slot_lt hld)
        · show slot _ _ = _
          rw [hhs, slot_set_ne _ _ hds]
          exact hs
        · by_cases hg : hd._refCount = some c
          · rw [if_pos hg]
            rcases shared_ptr.release_inv hrel with ⟨hnone, _⟩ | ⟨c2, n2, hc2, hn2, hcase⟩
            · rw [hnone] at hg
              cases hg
            · rw [hg] at hc2
              cases hc2
              rw [hn] at hn2
              cases hn2
              rcases hcase with ⟨_, hs0⟩ | ⟨_, values, _, hs0⟩
              · subst hs0
                simp only [Store.write, if_true, Option.some.injEq] at hm
                subst hm
                simp [Store.write, uint_inc_dec_of_lt n hlt]
              · subst hs0
                simp [Store.free] at hm
          · rw [if_neg hg]
            rw [hcs c hg, hn] at hm
            cases hm
            simp [Store.write]

/-- Witness for C6, amended: `s` wraps `V(10, 50.0)` and has one copy, so its counter holds
2; a third handle is default-constructed.  Copy-initialisation from `move(s)` takes the
counter to 3, `s = move(s)` changes nothing, `d = move(s)` leaves it at 2 for the copy and
takes it to 3 for the default-constructed handle; `s` keeps its payload throughout. -/
theorem shared_rvalue_copies_witness :
    ∃ s sa sb sc : State Test_Object,
      run State.empty [.ctor_value ⟨10, 50⟩ 0 0, .ctor_copy 0, .ctor_default 1] = some s ∧
      s.counters 0 = some 2 ∧ s.liveCount < UINT_MOD ∧
      shared_ptr.ctor_copy s (move 0) = some sa ∧ sa.counters 0 = some 3 ∧
      sa.handle 3 = some ⟨some 0, some 0⟩ ∧ sa.handle 0 = some ⟨some 0, some 0⟩ ∧
      shared_ptr.assign s 0 (move 0) = some s ∧
      shared_ptr.assign s 1 (move 0) = some sb ∧ sb.counters 0 = some 2 ∧
      sb.handle 1 = some ⟨some 0, some 0⟩ ∧ sb.handle 0 = some ⟨some 0, some 0⟩ ∧
      shared_ptr.assign s 2 (move 0) = some sc ∧ sc.counters 0 = some 3 ∧
      sc.handle 2 = some ⟨some 0, some 0⟩ ∧ sc.handle 0 = some ⟨some 0, some 0⟩ := by
  have hrun : run State.empty
      [Op.ctor_value (Test_Object.mk 10 50) 0 0, Op.ctor_copy 0, Op.ctor_default 1]
      = some ⟨((Store.write Store.empty 0 1).write 0 (uint_inc 1)).write 1 1,
          Store.write Store.empty 0 (Test_Object.mk 10 50),
          [some (shared_ptr.mk (some 0) (some 0)), some (shared_ptr.mk (some 0) (some 0)),
            some (shared_ptr.mk (some 1) none)]⟩ := rfl
  have hlive : State.liveCount (⟨((Store.write Store.empty 0 1).write 0 (uint_inc 1)).write 1 1,
      Store.write Store.empty 0 (Test_Object.mk 10 50),
      [some (shared_ptr.mk (some 0) (some 0)), some (shared_ptr.mk (some 0) (some 0)),
        some (shared_ptr.mk (some 1) none)]⟩ : State Test_Object) < UINT_MOD := by decide
  have h3 : uint_inc 2 = 3 := by decide
  obtain ⟨⟨sa, ha, hac, han, has, -⟩, hself, hother⟩ :=
    shared_rvalue_copies _ ⟨_, hrun⟩ 0 (shared_ptr.mk (some 0) (some 0)) 0 2 rfl rfl
      (by decide)
  obtain ⟨hdef1, hres1⟩ := hother 1 (shared_ptr.mk (some 0) (some 0)) rfl (by decide)
  obtain ⟨hdef2, hres2⟩ := hother 2 (shared_ptr.mk (some 1) none) rfl (by decide)
  obtain ⟨sb, hb⟩ := hdef1 hlive
  obtain ⟨sc, hc⟩ := hdef2 hlive
  obtain ⟨hb1, hb0, hbc⟩ := hres1 sb hb
  obtain ⟨hc2, hc0, hcc⟩ := hres2 sc hc
  rw [if_pos rfl] at hbc
  rw [if_neg (by decide), h3] at hcc
  rw [h3] at hac
  exact ⟨_, sa, sb, sc, hrun, by decide, hlive, ha, hac, han, has, hself, hb, hbc, hb1, hb0,
    hc, hcc, hc2, hc0⟩

/-- C6, as the claim states it, fails: no move constructor or move assignment is declared,
so an rvalue source binds to `const shared_ptr&`.  With `s` wrapping `V(10, 50.0)` (counter 1)
and `d` default-constructed, both `d = move(s)` and copy-initialisation from `move(s)` raise
the counter of `s`'s group from 1 to 2 and leave `s` holding its payload. -/
theorem shared_move_copies :
    ∃ s0 s1 s2 : State Test_Object,
      run State.empty [.ctor_value ⟨10, 50⟩ 0 0, .ctor_default 1] = some s0 ∧
      s0.counters 0 = some 1 ∧
      shared_ptr.assign s0 1 (move 0) = some s1 ∧
      s1.counters 0 = some 2 ∧ s1.handle 0 = some ⟨some 0, some 0⟩ ∧
      shared_ptr.ctor_copy s0 (move 0) = some s2 ∧
      s2.counters 0 = some 2 ∧ s2.handle 0 = some ⟨some 0, some 0⟩ := by
  refine ⟨⟨(Store.write Store.empty 0 1).write 1 1, Store.write Store.empty 0 ⟨10, 50⟩,
      [some ⟨some 0, some 0⟩, some ⟨some 1, none⟩]⟩, _, _, rfl, ?_, rfl, ?_, rfl, rfl, ?_, rfl⟩
  · decide
  · decide
  · decide

/-- C7, amended. Default construction produces a handle that owns no payload (`_raw` is
null) and owns a counter of its own: `_refCount` is the address `new` returned, the counter
there holds 1, and the payloads, the other counters and the other handles are as before. -/
theorem shared_ctor_default_spec (s : State T) (c : Addr) (hfree : s.counters c = none) :
    ∃ s1, shared_ptr.ctor_default s c = some s1 ∧
      s1.handle s.handles.length = some ⟨some c, none⟩ ∧
      s1.counters c = some 1 ∧
      s1.values = s.values ∧
      (∀ q, q ≠ c → s1.counters q = s.counters q) ∧
      ∀ i, i < s.handles.length → s1.handle i = s.handle i := by
  refine ⟨⟨s.counters.write c 1, s.values, s.handles ++ [some ⟨some c, none⟩]⟩,
    ?_, ?_, ?_, rfl, ?_, ?_⟩
  · simp [shared_ptr.ctor_default, Store.alloc, hfree]
  · exact slot_append_length _ _
  · simp [Store.write]
  · intro q hq
    simp [Store.write, hq]
  · intro i hi
    exact slot_append_left _ _ hi

/-- Witness for C7, amended: default construction next to a handle wrapping `V(10, 50.0)`. -/
theorem shared_ctor_default_spec_witness :
    ∃ s1, shared_ptr.ctor_default
        (⟨Store.write Store.empty 3 1, Store.write Store.empty 5 ⟨10, 50⟩,
          [some ⟨some 3, some 5⟩]⟩ : State Test_Object) 4 = some s1 ∧
      s1.handle 1 = some ⟨some 4, none⟩ ∧
      s1.counters 4 = some 1 :=
  have h := shared_ctor_default_spec
    (⟨Store.write Store.empty 3 1, Store.write Store.empty 5 ⟨10, 50⟩,
      [some ⟨some 3, some 5⟩]⟩ : State Test_Object) 4 (by decide)
  ⟨h.choose, h.choose_spec.1, h.choose_spec.2.1, h.choose_spec.2.2.1⟩

/-- C7, as the claim states it, fails: the handle `shared_ptr(void)` makes in the empty free
store has a non-null `_refCount`, and a counter holding 1 has been allocated for it. -/
theorem shared_ctor_default_owns_counter :
    ∃ s1 : State Test_Object, shared_ptr.ctor_default State.empty 0 = some s1 ∧
      s1.handle 0 = some ⟨some 0, none⟩ ∧ s1.counters 0 = some 1 :=
  ⟨⟨Store.write Store.empty 0 1, Store.empty, [some ⟨some 0, none⟩]⟩, rfl, rfl, by decide⟩

/-- C14. The empty pack: `Test_Object()` is `V(1, 10.0)`, but `make_shared_ptr<Object>()`
returns a handle whose `get()` is null: it owns a counter holding 1 and no payload, and no
`Test_Object` is allocated.  With the pack `(300, 30.0)` the returned handle dereferences to
`V(300, 30.0)` and its fresh counter holds 1. -/
theorem shared_factory_empty_pack :
    Lib.Create Test_Object.ctor [] = some ⟨1, 10⟩ ∧
    (∃ s1, make_shared_ptr Test_Object.ctor State.empty [] 3 7 = some s1 ∧
      s1.handle 0 = some ⟨some 3, none⟩ ∧ shared_ptr.deref s1 ⟨some 3, none⟩ = none ∧
      s1.counters 3 = some 1 ∧ s1.values = Store.empty) ∧
    ∃ s2, make_shared_ptr Test_Object.ctor State.empty [.int 300, .double 30] 3 7 = some s2 ∧
      s2.handle 0 = some ⟨some 3, some 7⟩ ∧
      shared_ptr.deref s2 ⟨some 3, some 7⟩ = some ⟨300, 30⟩ ∧
      s2.counters 3 = some 1 := by
  exact ⟨rfl, ⟨⟨Store.write Store.empty 3 1, Store.empty, [some ⟨some 3, none⟩]⟩,
      rfl, rfl, rfl, by decide, rfl⟩,
    ⟨⟨Store.write Store.empty 3 1, Store.write Store.empty 7 ⟨300, 30⟩,
      [some ⟨some 3, some 7⟩]⟩, rfl, rfl, by decide, by decide⟩⟩

/-- C15. The shared life cycle, for every payload `V` and all addresses `c`, `v` that `new`
may return: `a` wraps `V` (counter 1); `b` is copied from `a` (counter 2, `a.get()` equals
`b.get()`); `a` is destroyed (counter 1, payload still live, `*b` is `V`); `b` is destroyed
(the counter is decremented from 1 to 0, and counter and payload are deallocated).  The
payload is released at the last step only. -/
theorem shared_life_cycle (s : State T) (V : T) (c v : Addr)
    (hc : s.counters c = none) (hv : s.values v = none) :
    ∃ s1 s2 s3 s4 : State T,
      shared_ptr.ctor_value s V c v = some s1 ∧ s1.counters c = some 1 ∧
      shared_ptr.ctor_copy s1 s.handles.length = some s2 ∧ s2.counters c = some 2 ∧
      (∃ ha hb, s2.handle s.handles.length = some ha ∧
        s2.handle (s.handles.length + 1) = some hb ∧ ha.get = hb.get ∧ ha.get = some v) ∧
      s2.values v = some V ∧
      shared_ptr.dtor s2 s.handles.length = some s3 ∧ s3.counters c = some 1 ∧
      s3.values v = some V ∧
      (∃ hb, s3.handle (s.handles.length + 1) = some hb ∧
        shared_ptr.deref s3 hb = some V) ∧
      shared_ptr.dtor s3 (s.handles.length + 1) = some s4 ∧ uint_dec 1 = 0 ∧
      s4.counters c = none ∧ s4.values v = none := by
  have e1 := shared_ptr.ctor_value_eq s V c v hc hv
  have ha1 : slot (s.handles ++ [some (shared_ptr.mk (some c) (some v))]) s.handles.length
      = some ⟨some c, some v⟩ := slot_append_length _ _
  have e2 := shared_ptr.ctor_copy_eq
    (⟨s.counters.write c 1, s.values.write v V,
      s.handles ++ [some (shared_ptr.mk (some c) (some v))]⟩ : State T)
    s.handles.length ⟨some c, some v⟩ c 1 ha1 rfl (by simp [Store.write])
  rw [uint_inc_one] at e2
  have hlen : (s.handles ++ [some (shared_ptr.mk (some c) (some v))]).length
      = s.handles.length + 1 := by simp
  have ha2 : slot (s.handles ++ [some (shared_ptr.mk (some c) (some v))]
      ++ [some (shared_ptr.mk (some c) (some v))]) s.handles.length
      = some ⟨some c, some v⟩ := by
    rw [slot_append_left _ _ (by rw [hlen]; exact Nat.lt_succ_self _)]
    exact ha1
  have hb2 : slot (s.handles ++ [some (shared_ptr.mk (some c) (some v))]
      ++ [some (shared_ptr.mk (some c) (some v))]) (s.handles.length + 1)
      = some ⟨some c, some v⟩ := by
    have := slot_append_length (s.handles ++ [some (shared_ptr.mk (some c) (some v))])
      (some (shared_ptr.mk (some c) (some v)))
    rw [hlen] at this
    exact this
  have e3 := shared_ptr.dtor_keep
    (⟨(s.counters.write c 1).write c 2, s.values.write v V,
      s.handles ++ [some (shared_ptr.mk (some c) (some v))]
        ++ [some (shared_ptr.mk (some c) (some v))]⟩ : State T)
    s.handles.length ⟨some c, some v⟩ c 2 ha2 rfl (by simp [Store.write])
    (by rw [uint_dec_two]; decide)
  rw [uint_dec_two] at e3
  have hb3 : slot ((s.handles ++ [some (shared_ptr.mk (some c) (some v))]
      ++ [some (shared_ptr.mk (some c) (some v))]).set s.handles.length none)
      (s.handles.length + 1) = some ⟨some c, some v⟩ := by
    rw [slot_set_ne _ _ (Nat.ne_of_lt (Nat.lt_succ_self _))]
    exact hb2
  have e4 := shared_ptr.dtor_free
    (⟨((s.counters.write c 1).write c 2).write c 1, s.values.write v V,
      (s.handles ++ [some (shared_ptr.mk (some c) (some v))]
        ++ [some (shared_ptr.mk (some c) (some v))]).set s.handles.length none⟩ : State T)
    (s.handles.length + 1) ⟨some c, some v⟩ c 1 ((s.values.write v V).free v) hb3 rfl
    (by simp [Store.write]) uint_dec_one
    (Store.delete_live_eq _ v V (by simp [Store.write]))
  refine ⟨_, _, _, _, e1, by simp [Store.write], e2, by simp [Store.write],
    ⟨_, _, ha2, hb2, rfl, rfl⟩, by simp [Store.write], e3, by simp [Store.write],
    by simp [Store.write], ⟨_, hb3, by simp [shared_ptr.deref, Store.write]⟩, e4,
    uint_dec_one, by simp [Store.free], by simp [Store.free]⟩

/-- Witness for C15: the life cycle with `V(10, 50.0)` from the empty free store. -/
theorem shared_life_cycle_witness :
    ∃ s1 s2 s3 s4 : State Test_Object,
      shared_ptr.ctor_value State.empty ⟨10, 50⟩ 3 7 = some s1 ∧ s1.counters 3 = some 1 ∧
      shared_ptr.ctor_copy s1 0 = some s2 ∧ s2.counters 3 = some 2 ∧
      shared_ptr.dtor s2 0 = some s3 ∧ s3.counters 3 = some 1 ∧
      s3.values 7 = some ⟨10, 50⟩ ∧
      shared_ptr.dtor s3 1 = some s4 ∧ s4.counters 3 = none ∧ s4.values 7 = none := by
  obtain ⟨s1, s2, s3, s4, h1, c1, h2, c2, -, -, h3, c3, v3, -, h4, -, c4, v4⟩ :=
    shared_life_cycle (State.empty : State Test_Object) ⟨10, 50⟩ 3 7 rfl rfl
  exact ⟨s1, s2, s3, s4, h1, c1, h2, c2, h3, c3, v3, h4, c4, v4⟩

/-- C16. Copy assignment `a = b` between two distinct live handles of a reachable state whose
`_refCount` is the same counter, holding `n ≥ 2`: the release step takes the counter to
`n - 1 ≥ 1`, never to 0, and deallocates nothing; afterwards every counter and every payload
is as before (the counter holds `n` again), `b` and every handle other than `a` are
unchanged, and `a` holds `b`'s `_raw` and `_refCount`, so when `a` and `b` held the same
`_raw` (as handles of one counter do while fewer than `2 ^ 32` handles are live) the whole
state is as before. -/
theorem shared_assign_same_group (s : State T) (hr : Reachable s) (a b : Nat)
    (ha hb : shared_ptr) (p : Addr) (n : Nat)
    (hla : s.handle a = some ha) (hlb : s.handle b = some hb) (hab : a ≠ b)
    (hca : ha._refCount = some p) (hcb : hb._refCount = some p)
    (hn : s.counters p = some n) (h2 : 2 ≤ n) :
    ∃ s0 s1, shared_ptr.release s ha = some s0 ∧
      s0.counters p = some (n - 1) ∧ 1 ≤ n - 1 ∧ s0.values = s.values ∧
      (∀ q, q ≠ p → s0.counters q = s.counters q) ∧
      shared_ptr.assign s a b = some s1 ∧
      s1.counters = s.counters ∧ s1.values = s.values ∧
      s1.handle a = some hb ∧ s1.handle b = some hb ∧
      (∀ i, i ≠ a → s1.handle i = s.handle i) ∧
      (ha._raw = hb._raw → s1 = s) ∧
      (s.liveCount < UINT_MOD → ha._raw = hb._raw) := by
  have hlt : n < UINT_MOD := by
    have hag := hr.counterInv.2 p
    rw [hn] at hag
    simp only [Agrees, UINT_MOD] at hag ⊢
    omega
  have hdec : uint_dec n = n - 1 := uint_dec_of_pos n (by omega) hlt
  have hrel := shared_ptr.release_keep s ha p n hca hn (by rw [hdec]; omega)
  have hacq := shared_ptr.acquire_eq
    (⟨s.counters.write p (uint_dec n), s.values, s.handles⟩ : State T) a hb p (uint_dec n)
    hcb (by simp [Store.write])
  have hcnt : (s.counters.write p (uint_dec n)).write p (uint_inc (uint_dec n))
      = s.counters := by
    rw [Store.write_write, uint_inc_dec n (by omega) hlt]
    exact Store.write_same _ _ _ hn
  rw [hcnt] at hacq
  refine ⟨_, _, hrel, by simp [Store.write, hdec], by omega, rfl, ?_,
    (shared_ptr.assign_eq s _ a b ha hb hla hlb hab hrel).trans hacq, rfl, rfl,
    slot_set_self _ _ (slot_lt hla), ?_, ?_, ?_, ?_⟩
  · intro q hq
    simp [Store.write, hq]
  · show slot _ _ = _
    rw [slot_set_ne _ _ hab]
    exact hlb
  · intro i hi
    exact slot_set_ne _ _ (Ne.symm hi)
  · intro hraw
    have hsame : hb = ha := by
      cases ha
      cases hb
      simp only at hca hcb hraw
      simp [hca, hcb, hraw]
    rw [hsame, set_slot_self _ _ _ hla]
  · intro hlive
    exact hr.grouped hlive ha hb p (State.mem_of_handle hla) (State.mem_of_handle hlb) hca hcb

/-- Witness for C16: `V(10, 50.0)` wrapped once and copied once; then the copy is assigned
from the original. -/
theorem shared_assign_same_group_witness :
    ∃ s s1 : State Test_Object,
      run State.empty [.ctor_value ⟨10, 50⟩ 3 7, .ctor_copy 0] = some s ∧
      s.counters 3 = some 2 ∧
      shared_ptr.assign s 1 0 = some s1 ∧ s1.counters = s.counters ∧
      s1.values = s.values ∧ s1 = s := by
  have hrun := run_sharing (Test_Object.mk 10 50) 3 7 [0] ⟨by decide, trivial⟩
  obtain ⟨s0, s1, -, -, -, -, -, hassign, hc, hv, -, -, -, hsame, -⟩ :=
    shared_assign_same_group (sharing (Test_Object.mk 10 50) 3 7 2) ⟨_, hrun⟩ 1 0
      ⟨some 3, some 7⟩ ⟨some 3, some 7⟩ 3 2 rfl rfl (by decide) rfl rfl (by decide)
      (by decide)
  exact ⟨_, s1, hrun, by decide, hassign, hc, hv, hsame rfl⟩

/-- C17, amended. The counter is an `unsigned int`: with `N` live handles sharing one value
(one value-wrapping construction and `N - 1` copy constructions) it holds `N` modulo
`2 ^ 32`.  For `1 ≤ N < 2 ^ 32` it holds `N`, and destroying one handle deallocates counter
and payload only if it is the last one (`N = 1`); with `N ≥ 2` the counter goes to `N - 1`
and the payload stays live. -/
theorem shared_counter_modulo (x : T) (c v : Addr) (srcs : List Nat)
    (hsrc : sourcesBelow 1 srcs) :
    ∃ s, run State.empty (Op.ctor_value x c v :: srcs.map Op.ctor_copy) = some s ∧
      s.liveCount = srcs.length + 1 ∧
      s.counters c = some ((srcs.length + 1) % UINT_MOD) ∧
      (srcs.length + 1 < UINT_MOD →
        s.counters c = some (srcs.length + 1) ∧
        ∀ i, i < srcs.length + 1 → ∃ s1, shared_ptr.dtor s i = some s1 ∧
          (1 ≤ srcs.length → s1.counters c = some srcs.length ∧ s1.values v = some x) ∧
          (srcs.length = 0 → s1.counters c = none ∧ s1.values v = none)) := by
  refine ⟨sharing x c v (srcs.length + 1), run_sharing x c v srcs hsrc, ?_,
    sharing_counters x c v _, ?_⟩
  · show (List.replicate _ _).countP _ = _
    rw [List.countP_replicate]
    simp
  · intro hN
    have hcnt : (sharing x c v (srcs.length + 1)).counters c = some (srcs.length + 1) := by
      rw [sharing_counters, Nat.mod_eq_of_lt hN]
    refine ⟨hcnt, ?_⟩
    intro i hi
    have hh := sharing_handle x c v (srcs.length + 1) i hi
    have hdec := uint_dec_of_pos (srcs.length + 1) (Nat.succ_pos _) hN
    have hval := sharing_values x c v (srcs.length + 1)
    by_cases h0 : srcs.length = 0
    · have hstep := shared_ptr.dtor_free (sharing x c v (srcs.length + 1)) i
        ⟨some c, some v⟩ c (srcs.length + 1)
        ((sharing x c v (srcs.length + 1)).values.free v) hh rfl hcnt
        (by rw [hdec]; omega) (Store.delete_live_eq _ v x hval)
      refine ⟨_, hstep, fun h1 => by omega, fun _ => ⟨?_, ?_⟩⟩
      · simp [Store.free]
      · simp [Store.free]
    · have hstep := shared_ptr.dtor_keep (sharing x c v (srcs.length + 1)) i
        ⟨some c, some v⟩ c (srcs.length + 1) hh rfl hcnt (by rw [hdec]; omega)
      refine ⟨_, hstep, fun _ => ⟨?_, hval⟩, fun h1 => absurd h1 h0⟩
      simp [Store.write, hdec]

/-- Witness for C17, amended: `V(10, 50.0)` wrapped once and copied twice. -/
theorem shared_counter_modulo_witness :
    ∃ s : State Test_Object,
      run State.empty [.ctor_value ⟨10, 50⟩ 3 7, .ctor_copy 0, .ctor_copy 1] = some s ∧
      s.liveCount = 3 ∧ s.counters 3 = some 3 ∧
      ∃ s1, shared_ptr.dtor s 2 = some s1 ∧ s1.counters 3 = some 2 ∧
        s1.values 7 = some ⟨10, 50⟩ := by
  obtain ⟨s, hrun, hlive, -, hbelow⟩ :=
    shared_counter_modulo (Test_Object.mk 10 50) 3 7 [0, 1] ⟨by decide, by decide, trivial⟩
  obtain ⟨hcnt, hd⟩ := hbelow (by decide)
  obtain ⟨s1, hdtor, hkeep, -⟩ := hd 2 (by decide)
  exact ⟨s, hrun, hlive, hcnt, s1, hdtor, hkeep (by decide)⟩

/-- C17, as the claim states it, fails: with `2 ^ 32 - 1` live handles sharing `V(10, 50.0)`
the counter holds `2 ^ 32 - 1`; one more copy construction gives `2 ^ 32` live handles and
wraps the counter to 0. -/
theorem shared_counter_wraps_on_copy :
    ∃ s s1 : State Test_Object, run State.empty
        (Op.ctor_value ⟨10, 50⟩ 0 0 :: (List.replicate (UINT_MOD - 2) 0).map Op.ctor_copy)
          = some s ∧
      s.liveCount = UINT_MOD - 1 ∧ s.counters 0 = some (UINT_MOD - 1) ∧
      shared_ptr.ctor_copy s 0 = some s1 ∧
      s1.liveCount = UINT_MOD ∧ s1.counters 0 = some 0 :=
  sharing_wraps_copy (Test_Object.mk 10 50)

/-- C18, amended. In every reachable state the `_refCount` of every live handle is non-null
(so the null checks in copy construction and copy assignment never fail).  When fewer than
`2 ^ 32` handles are live it points to a live counter holding at least 1, and the
destructor, with its unconditional `--(*_refCount)`, is defined. -/
theorem shared_counter_pointer (s : State T) (hr : Reachable s) (i : Nat) (h : shared_ptr)
    (hi : s.handle i = some h) :
    (∃ c, h._refCount = some c) ∧
    (s.liveCount < UINT_MOD →
      ∃ c n s1, h._refCount = some c ∧ s.counters c = some n ∧ 1 ≤ n ∧
        shared_ptr.dtor s i = some s1) := by
  refine ⟨hr.counterInv.1 i h hi, ?_⟩
  intro hlt
  obtain ⟨hnn, hcl, hexact⟩ := hr.clean hlt
  obtain ⟨c, hc⟩ := hnn i h hi
  obtain ⟨n, hn⟩ := hcl.counterLive h c (State.mem_of_handle hi) hc
  obtain ⟨huse, h1⟩ := hexact c n hn
  have hbound : n < UINT_MOD := by
    have := s.useCount_le_liveCount c
    omega
  by_cases hone : n = 1
  · obtain ⟨values, hdel⟩ := Store.delete_defined s.values h._raw
      (fun v hv => hcl.rawLive h v (State.mem_of_handle hi) hv)
    exact ⟨c, n, _, hc, hn, h1, shared_ptr.dtor_free s i h c n values hi hc hn
      ((uint_dec_eq_zero n hbound).mpr hone) hdel⟩
  · exact ⟨c, n, _, hc, hn, h1, shared_ptr.dtor_keep s i h c n hi hc hn
      (fun hz => hone ((uint_dec_eq_zero n hbound).mp hz))⟩

/-- Witness for C18, amended: `V(10, 50.0)` wrapped once and copied once. -/
theorem shared_counter_pointer_witness :
    ∃ s : State Test_Object,
      run State.empty [.ctor_value ⟨10, 50⟩ 3 7, .ctor_copy 0] = some s ∧
      s.handle 1 = some ⟨some 3, some 7⟩ ∧
      (∃ c, (shared_ptr.mk (some 3) (some 7))._refCount = some c) ∧
      (s.liveCount < UINT_MOD →
        ∃ c n s1, (shared_ptr.mk (some 3) (some 7))._refCount = some c ∧
          s.counters c = some n ∧ 1 ≤ n ∧ shared_ptr.dtor s 1 = some s1) :=
  ⟨sharing (Test_Object.mk 10 50) 3 7 2,
    run_sharing (Test_Object.mk 10 50) 3 7 [0] ⟨by decide, trivial⟩, rfl,
    shared_counter_pointer (sharing (Test_Object.mk 10 50) 3 7 2)
      ⟨[.ctor_value (Test_Object.mk 10 50) 3 7, .ctor_copy 0],
        run_sharing (Test_Object.mk 10 50) 3 7 [0] ⟨by decide, trivial⟩⟩
      1 ⟨some 3, some 7⟩ rfl⟩

/-- C18, as the claim states it, fails: constructors, copy constructions and one copy
assignment give a live handle whose `_refCount` points to a deallocated counter, and whose
destruction is undefined. -/
theorem shared_counter_pointer_dangles :
    ∃ s : State Test_Object, run State.empty
        (Op.ctor_value ⟨10, 50⟩ 0 0 :: (List.replicate UINT_MOD 0).map Op.ctor_copy
          ++ [Op.ctor_value ⟨1, 10⟩ 1 1, Op.assign 0 (UINT_MOD + 1)]) = some s ∧
      s.handle 1 = some ⟨some 0, some 0⟩ ∧ s.counters 0 = none ∧
      shared_ptr.dtor s 1 = none :=
  sharing_wraps_dangling (Test_Object.mk 10 50) (Test_Object.mk 1 10)

end nex
